import Mathlib

/-!
# Verification of `chk-n/retry` (`retry.go`)

A shallow embedding of the Go package `retry`: the delay calculator
`Retry.delay`, the bounded retry loop `Retry.Do` and the timeout variant
`Retry.DoTimeout`, followed by theorems about them.

Conventions of the embedding:

* Go `int`, `int64` and `time.Duration` values are integers (`Int`); the only
  integer operation of the package that can leave the 64-bit range, the loop
  increment `attempt++`, wraps through `wrapInt64`.
* Go `float64` values are modelled by `F64`: a finite value is a pair
  `(m, e)` standing for the dyadic number `m * 2 ^ e`, and every arithmetic
  operation computes the exact dyadic result and then rounds it to the nearest
  float64 (ties to even), as IEEE 754 prescribes.  Each operation is rounded
  on its own, as `retry.go` writes them (a target that fuses `x * y + 1` into
  one rounding, which the Go specification permits, computes the same value
  whenever `x * y` is exact, as it is for the randomization factors `0` and
  `0.25` used below).
* A conversion `time.Duration(d)` of a float64 that int64 cannot represent is
  implementation-dependent in Go; the function that picks the result is a
  parameter `ovf` of the model, with the behaviour of the two common targets
  given as `amd64Convert` and `arm64Convert`.
-/

namespace retry

/-! ## float64 -/

/-- Values of Go's `float64`: `fin m e` is the finite number `m * 2 ^ e`,
`inf neg` is `+Inf` (`neg = false`) or `-Inf`, and `nan` is a NaN.  The sign of
a zero is not recorded; nothing in `retry.go` can observe it. -/
inductive F64 where
  | fin (m : Int) (e : Int)
  | inf (neg : Bool)
  | nan
  deriving DecidableEq, Repr

namespace F64

/-- Number of binary digits of `n`, counted by halving at most `fuel` times. -/
def bitLenAux : Nat → Nat → Nat
  | 0, _ => 0
  | fuel + 1, n => if n = 0 then 0 else bitLenAux fuel (n / 2) + 1

/-- Number of binary digits of `n` (`bitLen 0 = 0`): the least `l` with
`n < 2 ^ l`. -/
def bitLen (n : Nat) : Nat := bitLenAux n n

/-- The integer `m * 2 ^ k`. -/
def shl (m : Int) (k : Nat) : Int := m * ((2 ^ k : Nat) : Int)

/-- The quotient `n / 2 ^ k` rounded to the nearest integer, a tie going to
the even neighbour. -/
def roundShift (n k : Nat) : Nat :=
  let q := n / 2 ^ k
  let r := n % 2 ^ k
  if 2 ^ k < 2 * r ∨ (2 * r = 2 ^ k ∧ q % 2 = 1) then q + 1 else q

/-- The exponent of the last place a float64 keeps of a number `n * 2 ^ e`:
53 significant bits, the last place never finer than `2 ^ (-1074)` (nor than
`2 ^ e`, where the number is exact already). -/
def roundExp (n : Nat) (e : Int) : Int := max e (max (e + (bitLen n : Int) - 53) (-1074))

/-- Round the exact dyadic number `m * 2 ^ e` to the nearest float64, ties to
even; a result of magnitude `2 ^ 1024` or more is an infinity. -/
def round (m e : Int) : F64 :=
  let n := m.natAbs
  let ex := roundExp n e
  let q := roundShift n (ex - e).toNat
  if 1024 < ex + (bitLen q : Int) ∧ q ≠ 0 then .inf (decide (m < 0))
  else .fin (if m < 0 then -(q : Int) else (q : Int)) ex

/-- Conversion `float64(n)` of an integer. -/
def ofInt (n : Int) : F64 := round n 0

/-- Product `x * y` in float64. -/
def mul : F64 → F64 → F64
  | .fin m1 e1, .fin m2 e2 => round (m1 * m2) (e1 + e2)
  | .fin m _, .inf neg => if m = 0 then .nan else .inf (decide (m < 0) != neg)
  | .inf neg, .fin m _ => if m = 0 then .nan else .inf (decide (m < 0) != neg)
  | .inf n1, .inf n2 => .inf (n1 != n2)
  | _, _ => .nan

/-- Sum `x + y` in float64. -/
def add : F64 → F64 → F64
  | .fin m1 e1, .fin m2 e2 =>
      let e := min e1 e2
      round (shl m1 (e1 - e).toNat + shl m2 (e2 - e).toNat) e
  | .fin _ _, .inf neg => .inf neg
  | .inf neg, .fin _ _ => .inf neg
  | .inf n1, .inf n2 => if n1 = n2 then .inf n1 else .nan
  | _, _ => .nan

/-- Comparison `x < y` in float64 (false as soon as one side is a NaN). -/
def lt : F64 → F64 → Bool
  | .fin m1 e1, .fin m2 e2 =>
      let e := min e1 e2
      decide (shl m1 (e1 - e).toNat < shl m2 (e2 - e).toNat)
  | .fin _ _, .inf neg => !neg
  | .inf neg, .fin _ _ => neg
  | .inf n1, .inf n2 => n1 && !n2
  | _, _ => false

/-- Comparison `x <= y` in float64 (false as soon as one side is a NaN). -/
def le : F64 → F64 → Bool
  | .fin m1 e1, .fin m2 e2 =>
      let e := min e1 e2
      decide (shl m1 (e1 - e).toNat ≤ shl m2 (e2 - e).toNat)
  | .fin _ _, .inf neg => !neg
  | .inf neg, .fin _ _ => neg
  | .inf n1, .inf n2 => n1 || !n2
  | _, _ => false

/-- The constant `math.MaxFloat64`, `(2 ^ 53 - 1) * 2 ^ 971`. -/
def maxFloat64 : F64 := .fin (2 ^ 53 - 1) 971

/-- The float64 constant `1`. -/
def one : F64 := .fin 1 0

/-- The float64 constant `0`. -/
def zero : F64 := .fin 0 0

/-- The call `math.Pow(2, float64(n))` for an integer `n`: the power of two
`2 ^ n` when float64 can hold it, `+Inf` above the exponent range and `0` below
it (`2 ^ (-1075)` is a tie between `0` and `2 ^ (-1074)` and rounds to the even
one, `0`). -/
def pow2 (n : Int) : F64 :=
  if 1023 < n then .inf false
  else if n < -1074 then .fin 0 0
  else .fin 1 n

/-- The finite number `m * 2 ^ e` with its fraction discarded (rounded toward
zero). -/
def truncate (m e : Int) : Int :=
  if 0 ≤ e then shl m e.toNat else Int.tdiv m (shl 1 (-e).toNat)

/-- The integer part of a float64, when the float64 is finite. -/
def trunc : F64 → Option Int
  | .fin m e => some (truncate m e)
  | _ => none

/-- Conversion of a float64 to `int64` (and so to `time.Duration`): the value
truncated toward zero when int64 can represent it, and the
implementation-dependent `ovf x` otherwise (out of range, infinite or NaN). -/
def toInt64 (ovf : F64 → Int) (x : F64) : Int :=
  match x with
  | .fin m e =>
      let t := truncate m e
      if -2 ^ 63 ≤ t ∧ t < 2 ^ 63 then t else ovf x
  | _ => ovf x

end F64

/-- Out-of-range conversion on amd64: the instruction `CVTTSD2SQ` yields the
"integer indefinite" value `-2 ^ 63` for every float64 that int64 cannot
represent. -/
def amd64Convert : F64 → Int := fun _ => -2 ^ 63

/-- Out-of-range conversion on arm64: the instruction `FCVTZS` saturates, and
gives `0` for a NaN. -/
def arm64Convert : F64 → Int
  | .fin m _ => if m < 0 then -2 ^ 63 else 2 ^ 63 - 1
  | .inf neg => if neg then -2 ^ 63 else 2 ^ 63 - 1
  | .nan => 0

/-- The constant `math.MaxInt64`. -/
def maxInt64 : Int := 2 ^ 63 - 1

/-- The value of a Go `int` (64 bits) after an operation whose mathematical
result is `x`: signed overflow wraps around. -/
def wrapInt64 (x : Int) : Int := (x + 2 ^ 63) % 2 ^ 64 - 2 ^ 63

/-! ## The policy and the delay calculator -/

/-- The interface `randGenerator`, as the sequence of values its successive
`Float64()` calls return together with the number of calls made so far. -/
structure randGenerator where
  samples : Nat → F64
  drawn : Nat

/-- The call `Float64()`: the next sample, and the generator after the call. -/
def randGenerator.Float64 (g : randGenerator) : F64 × randGenerator :=
  (g.samples g.drawn, { g with drawn := g.drawn + 1 })

/-- The struct `Retry`.  Methods take the struct they are called on and return
it as it is after the call, so that every write to a field would be visible. -/
structure Retry where
  DelayFactor : Int
  RandomizationFactor : F64
  MaxDelay : Int
  MaxAttempts : Int
  Rand : randGenerator

/-- The method `delay` of `retry.go`: the duration it returns, in nanoseconds,
and the receiver after the call. -/
def Retry.delay (ovf : F64 → Int) (r : Retry) (attempt : Int) : Int × Retry :=
  let attempt := if attempt > 49 then 49 else attempt
  let sample := r.Rand.Float64
  let r := { r with Rand := sample.2 }
  let rf := F64.add (F64.mul r.RandomizationFactor sample.1) F64.one
  let b := F64.pow2 attempt
  let delay :=
    if F64.lt F64.maxFloat64 b then maxInt64
    else
      let d := F64.mul (F64.mul (F64.ofInt r.DelayFactor) b) rf
      if F64.lt F64.maxFloat64 d then maxInt64 else F64.toInt64 ovf d
  if delay < r.MaxDelay then (delay, r) else (r.MaxDelay, r)

/-- The first value of `rand.New(rand.NewSource(1)).Float64()`,
`0.6046602879796196 = 5446295695261503 / 2 ^ 53`. -/
def seed1Sample : F64 := .fin 5446295695261503 (-53)

/-- The second value of `rand.New(rand.NewSource(1)).Float64()`,
`0.9405090880450124 = 8471352756916166 / 2 ^ 53`. -/
def seed1Sample2 : F64 := .fin 8471352756916166 (-53)

/-- The policy `testRetry()` of `retry_test.go`: 10 ms delay factor, 2 s
maximum delay, 2 attempts, randomization factor `0.25 = 2 ^ (-2)`, and a random
source of seed 1, of which the first two values are given; no test of the
package draws more than two, and the later draws repeat the second here. -/
def testRetry : Retry where
  DelayFactor := 10000000
  RandomizationFactor := .fin 1 (-2)
  MaxDelay := 2000000000
  MaxAttempts := 2
  Rand := { samples := fun i => if i = 0 then seed1Sample else seed1Sample2, drawn := 0 }

/-- The receiver `r` after `i` more samples have been drawn from its random
source and nothing else has changed. -/
def Retry.skip (r : Retry) (i : Nat) : Retry :=
  { r with Rand := { r.Rand with drawn := r.Rand.drawn + i } }

/-- The raw delay of the specification, `delayFactor * 2 ^ attempt * rf` with
`rf = randomizationFactor * sample + 1`, every operation in float64. -/
def rawDelay (r : Retry) (sample : F64) (attempt : Int) : F64 :=
  F64.mul (F64.mul (F64.ofInt r.DelayFactor) (F64.pow2 attempt))
    (F64.add (F64.mul r.RandomizationFactor sample) F64.one)

/-- The last two steps of `delay` on a raw value `d`: the conversion to a
duration, which the guard `d > math.MaxFloat64` replaces by `math.MaxInt64`,
and the cap at `MaxDelay`. -/
def Retry.capped (ovf : F64 → Int) (r : Retry) (d : F64) : Int :=
  let t := if F64.lt F64.maxFloat64 d then maxInt64 else F64.toInt64 ovf d
  if t < r.MaxDelay then t else r.MaxDelay

/-! ## Errors -/

/-- Non-nil values of Go's `error` interface, as far as `errors.Is` can tell
them apart: `base id` is a comparable error value that wraps nothing (distinct
values have distinct `id`s), `wrap id inner` is a value whose `Unwrap()` returns
`inner`, and `join1`, `join2` are the values `errors.Join` builds from one or
two non-nil errors.  Error types with an `Is` method of their own, or that are
not comparable, are outside the model. -/
inductive GoError where
  | base (id : Nat)
  | wrap (id : Nat) (inner : GoError)
  | join1 (e : GoError)
  | join2 (e1 e2 : GoError)
  deriving DecidableEq, Repr

/-- A value of type `error`: `none` is `nil`. -/
abbrev Error := Option GoError

/-- The variable `errMaxAttemptsReached`. -/
def errMaxAttemptsReached : GoError := .base 0

/-- The variable `errTimoutReached`. -/
def errTimoutReached : GoError := .base 1

/-- The call `errors.Join(a, b)`: nil arguments are dropped, and the result is
nil when nothing is left. -/
def errorsJoin : Error → Error → Error
  | none, none => none
  | some a, none => some (.join1 a)
  | none, some b => some (.join1 b)
  | some a, some b => some (.join2 a b)

/-- The search of `errors.Is` through the tree of a non-nil error: the error
itself, then what it unwraps to, depth first. -/
def GoError.matches : GoError → GoError → Bool
  | .base id, target => decide (GoError.base id = target)
  | .wrap id inner, target =>
      decide (GoError.wrap id inner = target) || inner.matches target
  | .join1 e, target => decide (GoError.join1 e = target) || e.matches target
  | .join2 e1 e2, target =>
      decide (GoError.join2 e1 e2 = target) || e1.matches target || e2.matches target

/-- The call `errors.Is(err, target)`. -/
def errorsIs : Error → Error → Bool
  | some e, some t => e.matches t
  | none, none => true
  | _, _ => false

/-! ## The retry loop -/

/-- What one call of `Do` did: the error it returned, how many times it
invoked the operation, the attempt numbers it passed to `delay`, the durations
it passed to `time.Sleep` (both in order), and the receiver afterwards. -/
structure DoRun where
  err : Error
  calls : Nat
  attempts : List Int
  slept : List Int
  after : Retry

/-- The loop of `Do`, entered with loop variable `attempt` and variable `err`,
after `calls` invocations.  The operation is given by the results of its
successive invocations: `fn k` is what the `k`-th invocation returns.  Each
iteration uses one unit of `fuel`; the result is `none` when the fuel runs out
before the loop ends. -/
def Retry.DoLoop (ovf : F64 → Int) (fn : Nat → Error) :
    Nat → Int → Error → Nat → List Int → List Int → Retry → Option DoRun
  | 0, _, _, _, _, _, _ => none
  | fuel + 1, attempt, err, calls, attempts, slept, r =>
      if attempt ≤ r.MaxAttempts then
        match fn (calls + 1) with
        | none =>
            some { err := none, calls := calls + 1, attempts := attempts, slept := slept,
                   after := r }
        | some e =>
            let d := r.delay ovf attempt
            Retry.DoLoop ovf fn fuel (wrapInt64 (attempt + 1)) (some e) (calls + 1)
              (attempts ++ [attempt]) (slept ++ [d.1]) d.2
      else
        some { err := errorsJoin (some errMaxAttemptsReached) err, calls := calls,
               attempts := attempts, slept := slept, after := r }

/-- The method `Do` of `retry.go`, run for at most `fuel` loop iterations. -/
def Retry.Do (ovf : F64 → Int) (r : Retry) (fn : Nat → Error) (fuel : Nat) : Option DoRun :=
  Retry.DoLoop ovf fn fuel 1 none 0 [] [] r

/-! ## The timeout variant -/

/-- Time the first `calls` invocations of the operation and the sleeps `slept`
take, in nanoseconds: `took k` for the `k`-th invocation, and for a sleep its
duration when that is positive (`time.Sleep` returns at once otherwise). -/
def spent (took : Nat → Nat) (calls : Nat) (slept : List Int) : Int :=
  ((List.range calls).map (fun i => (took (i + 1) : Int))).sum +
    (slept.map (fun d => max d 0)).sum

/-- Time a run of `Do` takes, in nanoseconds: the durations of the invocations
of the operation (`took k` for the `k`-th) and of the sleeps (`time.Sleep`
returns at once for a duration that is not positive). -/
def elapsed (took : Nat → Nat) (run : DoRun) : Int :=
  ((List.range run.calls).map (fun i => (took (i + 1) : Int))).sum +
    (run.slept.map (fun d => max d 0)).sum

/-- The case of the `select` statement of `DoTimeout` that proceeds. -/
inductive selectCase where
  | timer
  | done
  deriving DecidableEq, Repr

/-- What one call of `DoTimeout` did: the error it returned, and the run of
`Do` whose completion it received on the channel `done` (`none` when the timer
fired first: that run is abandoned and its result is never read). -/
structure TimeoutRun where
  err : Error
  completed : Option DoRun

/-- How far the goroutine of `DoTimeout` is when the timer fires: its run of
`Do` has `ended` at an instant that is not after the timeout, or it is still
`running` (it may end later, or never). -/
inductive Progress where
  | ended (run : DoRun) (instant : Int)
  | running

/-- The goroutine of `DoTimeout`: the loop of `Do` (`Retry.DoLoop`) followed on
a clock, `now` nanoseconds after the call, until it ends or the clock is past
`timeout`.  The `k`-th invocation of the operation takes `dur k` nanoseconds,
or never returns when `dur k` is `none`; a sleep takes its duration when that
is positive.  The result is `none` when the fuel runs out before either
happens. -/
def Retry.DoClockLoop (ovf : F64 → Int) (fn : Nat → Error) (dur : Nat → Option Nat)
    (timeout : Int) :
    Nat → Int → Error → Nat → List Int → List Int → Retry → Int → Option Progress
  | 0, _, _, _, _, _, _, _ => none
  | fuel + 1, attempt, err, calls, attempts, slept, r, now =>
      if timeout < now then some .running
      else if attempt ≤ r.MaxAttempts then
        match dur (calls + 1) with
        | none => some .running
        | some w =>
            match fn (calls + 1) with
            | none =>
                if timeout < now + w then some .running
                else
                  some (.ended
                    { err := none, calls := calls + 1, attempts := attempts, slept := slept,
                      after := r } (now + w))
            | some e =>
                let d := r.delay ovf attempt
                Retry.DoClockLoop ovf fn dur timeout fuel (wrapInt64 (attempt + 1)) (some e)
                  (calls + 1) (attempts ++ [attempt]) (slept ++ [d.1]) d.2
                  (now + w + max d.1 0)
      else
        some (.ended
          { err := errorsJoin (some errMaxAttemptsReached) err, calls := calls,
            attempts := attempts, slept := slept, after := r } now)

/-- The method `DoTimeout` of `retry.go`, with the instant at which it returns
(in nanoseconds after the call).  The goroutine runs `Do` and then sends on
`done`; the `select` proceeds with the channel that is ready first: `done`
when the run of `Do` ends before the timeout, the timer when the timeout comes
first (the timer of a timeout that is not positive fires at once), and `tie`
when both are ready at the same instant.  With `done` the error of the run is
returned when the run ends; with the timer `errTimoutReached` is returned when
the timer fires, and the run is left to itself.  The result is `none` when
`fuel` does not suffice to tell. -/
def Retry.DoTimeoutAt (ovf : F64 → Int) (r : Retry) (timeout : Int) (fn : Nat → Error)
    (dur : Nat → Option Nat) (tie : selectCase) (fuel : Nat) : Option (TimeoutRun × Int) :=
  match Retry.DoClockLoop ovf fn dur timeout fuel 1 none 0 [] [] r 0 with
  | none => none
  | some .running => some ({ err := some errTimoutReached, completed := none }, max timeout 0)
  | some (.ended run finish) =>
      let first :=
        if finish < timeout then selectCase.done
        else if timeout < finish then selectCase.timer
        else tie
      match first with
      | .timer => some ({ err := some errTimoutReached, completed := none }, max timeout 0)
      | .done => some ({ err := run.err, completed := some run }, finish)

/-- The method `DoTimeout` of `retry.go` on an operation whose every invocation
returns, the `k`-th after `took k` nanoseconds: what `Retry.DoTimeoutAt`
gives, without the instant. -/
def Retry.DoTimeout (ovf : F64 → Int) (r : Retry) (timeout : Int) (fn : Nat → Error)
    (took : Nat → Nat) (tie : selectCase) (fuel : Nat) : Option TimeoutRun :=
  (r.DoTimeoutAt ovf timeout fn (fun k => some (took k)) tie fuel).map Prod.fst

/-! ## Auxiliary predicates -/

/-- A float64 that is not negative: a finite number `m * 2 ^ e` with `0 ≤ m`,
or `+Inf`; a NaN, which has no sign, is let through. -/
def F64.notNeg : F64 → Prop
  | .fin m _ => 0 ≤ m
  | .inf neg => neg = false
  | .nan => True

/-- A finite float64 that is not negative and at most `2 ^ K`. -/
def F64.finLe (x : F64) (K : Int) : Prop :=
  match x with
  | .fin m e => 0 ≤ m ∧ (m : ℚ) * (2 : ℚ) ^ e ≤ (2 : ℚ) ^ K
  | _ => False

/-! ## Concrete inputs -/

/-- The test policy with jitter disabled (`RandomizationFactor = 0`). -/
def noJitterRetry : Retry := { testRetry with RandomizationFactor := F64.zero }

/-- The test policy with a budget of a single attempt. -/
def oneAttemptRetry : Retry := { testRetry with MaxAttempts := 1 }

/-- The operation `mockFunction(failuresBeforeSuccess)` of `retry_test.go`: its
first `failuresBeforeSuccess` invocations fail, each with a new error value
(`errors.New("error")`), and the later ones succeed. -/
def mockFunction (failuresBeforeSuccess : Nat) : Nat → Error := fun k =>
  if k ≤ failuresBeforeSuccess then some (.base (k + 1)) else none

/-- An operation that fails with an error `e1` on its first invocation and,
from then on, with an error that wraps `e1` (as `fmt.Errorf("...: %w", e1)`
builds). -/
def wrappingOp : Nat → Error := fun k =>
  if k = 1 then some (.base 7) else some (.wrap 8 (.base 7))

/-- The test policy with a budget of five attempts. -/
def fiveAttemptRetry : Retry := { testRetry with MaxAttempts := 5 }

/-- An operation whose every invocation fails with `errTimoutReached`, as an
operation does that runs `DoTimeout` itself and hands on the error it gets when
the timeout is reached. -/
def timedOutOp : Nat → Error := fun _ => some errTimoutReached

/-- The test policy with the largest attempt budget an `int` can hold. -/
def maxBudgetRetry : Retry := { testRetry with MaxAttempts := maxInt64 }

/-- The test policy with no attempt budget (`MaxAttempts = 0`). -/
def noAttemptRetry : Retry := { testRetry with MaxAttempts := 0 }

/-! ## Facts about float64 -/

theorem F64.shl_cast (m : Int) (k : Nat) : ((F64.shl m k : Int) : ℚ) = (m : ℚ) * 2 ^ k := by
  simp [F64.shl]

theorem F64.shl_nonneg {m : Int} (h : 0 ≤ m) (k : Nat) : 0 ≤ F64.shl m k := by
  unfold F64.shl
  positivity

theorem F64.lt_fin_iff (m1 e1 m2 e2 : Int) :
    F64.lt (.fin m1 e1) (.fin m2 e2) = true ↔
      (m1 : ℚ) * (2 : ℚ) ^ e1 < (m2 : ℚ) * (2 : ℚ) ^ e2 := by
  have h2 : (0 : ℚ) < 2 := by norm_num
  have hpos : (0 : ℚ) < (2 : ℚ) ^ (min e1 e2) := zpow_pos h2 _
  have key : ∀ (m e : Int), min e1 e2 ≤ e →
      ((F64.shl m (e - min e1 e2).toNat : Int) : ℚ) * (2 : ℚ) ^ (min e1 e2) =
        (m : ℚ) * (2 : ℚ) ^ e := by
    intro m e he
    rw [F64.shl_cast, mul_assoc, ← zpow_natCast, ← zpow_add₀ (by norm_num : (2 : ℚ) ≠ 0)]
    congr 2
    rw [Int.toNat_of_nonneg (by omega)]
    omega
  simp only [F64.lt, decide_eq_true_eq]
  rw [← key m1 e1 (min_le_left _ _), ← key m2 e2 (min_le_right _ _)]
  rw [mul_lt_mul_right hpos]
  exact Int.cast_lt.symm

theorem F64.round_notNeg {m : Int} (h : 0 ≤ m) (e : Int) : (F64.round m e).notNeg := by
  have hm : ¬ m < 0 := by omega
  unfold F64.round
  simp only [hm, if_false, decide_False]
  split_ifs
  · simp [F64.notNeg]
  · simp only [F64.notNeg]
    exact Int.natCast_nonneg _

theorem F64.mul_notNeg {x y : F64} (hx : x.notNeg) (hy : y.notNeg) : (F64.mul x y).notNeg := by
  cases x with
  | fin m1 e1 =>
    cases y with
    | fin m2 e2 => exact F64.round_notNeg (Int.mul_nonneg hx hy) _
    | inf neg =>
      simp only [F64.notNeg] at hx hy
      have hm : ¬ m1 < 0 := by omega
      subst hy
      by_cases h0 : m1 = 0 <;> simp [F64.mul, F64.notNeg, h0, hm]
    | nan => simp [F64.mul, F64.notNeg]
  | inf neg =>
    cases y with
    | fin m2 e2 =>
      simp only [F64.notNeg] at hx hy
      have hm : ¬ m2 < 0 := by omega
      subst hx
      by_cases h0 : m2 = 0 <;> simp [F64.mul, F64.notNeg, h0, hm]
    | inf n2 =>
      simp only [F64.notNeg] at hx hy
      subst hx; subst hy
      simp [F64.mul, F64.notNeg]
    | nan => simp [F64.mul, F64.notNeg]
  | nan => cases y <;> simp [F64.mul, F64.notNeg]

theorem F64.add_notNeg {x y : F64} (hx : x.notNeg) (hy : y.notNeg) : (F64.add x y).notNeg := by
  cases x with
  | fin m1 e1 =>
    cases y with
    | fin m2 e2 =>
      exact F64.round_notNeg (Int.add_nonneg (F64.shl_nonneg hx _) (F64.shl_nonneg hy _)) _
    | inf neg => simpa [F64.add, F64.notNeg] using hy
    | nan => simp [F64.add, F64.notNeg]
  | inf neg =>
    cases y with
    | fin m2 e2 => simpa [F64.add, F64.notNeg] using hx
    | inf n2 =>
      simp only [F64.notNeg] at hx hy
      subst hx; subst hy
      simp [F64.add, F64.notNeg]
    | nan => simp [F64.add, F64.notNeg]
  | nan => cases y <;> simp [F64.add, F64.notNeg]

theorem F64.notNeg_of_zero_le {x : F64} (h : F64.le F64.zero x = true) : x.notNeg := by
  cases x with
  | fin m e =>
    simp only [F64.le, F64.zero, decide_eq_true_eq, F64.shl, zero_mul] at h
    simp only [F64.notNeg]
    have hp : (0 : Int) < ((2 ^ (e - min 0 e).toNat : Nat) : Int) := by positivity
    exact nonneg_of_mul_nonneg_left h hp
  | inf neg => simpa [F64.le, F64.zero, F64.notNeg] using h
  | nan => simp [F64.notNeg]

theorem F64.pow2_notNeg (n : Int) : (F64.pow2 n).notNeg := by
  unfold F64.pow2
  split_ifs <;> simp [F64.notNeg]

theorem rawDelay_notNeg (r : Retry) (sample : F64) (attempt : Int)
    (hDF : 0 ≤ r.DelayFactor) (hRF : r.RandomizationFactor.notNeg) (hs : sample.notNeg) :
    (rawDelay r sample attempt).notNeg := by
  unfold rawDelay
  apply F64.mul_notNeg
  · exact F64.mul_notNeg (F64.round_notNeg hDF 0) (F64.pow2_notNeg _)
  · apply F64.add_notNeg (F64.mul_notNeg hRF hs)
    simp [F64.one, F64.notNeg]

theorem F64.truncate_nonneg {m : Int} (h : 0 ≤ m) (e : Int) : 0 ≤ F64.truncate m e := by
  unfold F64.truncate
  split_ifs
  · exact F64.shl_nonneg h _
  · exact Int.tdiv_nonneg h (F64.shl_nonneg (by norm_num) _)

theorem F64.truncate_le {m : Int} (h : 0 ≤ m) (e : Int) :
    ((F64.truncate m e : Int) : ℚ) ≤ (m : ℚ) * (2 : ℚ) ^ e := by
  unfold F64.truncate
  split_ifs with he
  · rw [F64.shl_cast, ← zpow_natCast, Int.toNat_of_nonneg he]
  · have hk : ((-e).toNat : Int) = -e := Int.toNat_of_nonneg (by omega)
    have hd : (0 : Int) ≤ F64.shl 1 (-e).toNat := F64.shl_nonneg (by norm_num) _
    rw [Int.tdiv_eq_ediv h hd]
    have hpos : (0 : ℚ) < (2 : ℚ) ^ (-e).toNat := by positivity
    have hmul : ((m / F64.shl 1 (-e).toNat : Int) : ℚ) * (2 : ℚ) ^ (-e).toNat ≤ (m : ℚ) := by
      have := Int.ediv_mul_le m (ne_of_gt (show (0 : Int) < F64.shl 1 (-e).toNat by
        unfold F64.shl; positivity))
      have hc : ((m / F64.shl 1 (-e).toNat * F64.shl 1 (-e).toNat : Int) : ℚ) ≤ (m : ℚ) :=
        Int.cast_le.mpr this
      rw [Int.cast_mul, F64.shl_cast] at hc
      simpa using hc
    have he2 : (2 : ℚ) ^ e = ((2 : ℚ) ^ (-e).toNat)⁻¹ := by
      rw [← zpow_natCast, hk, zpow_neg, inv_inv]
    rw [he2, ← div_eq_mul_inv, le_div_iff₀ hpos]
    exact hmul

theorem F64.maxFloat64_not_lt_of_lt {m e : Int} {c : ℚ} (hv : (m : ℚ) * (2 : ℚ) ^ e < c)
    (hc : c ≤ (2 : ℚ) ^ (1023 : Int)) : F64.lt F64.maxFloat64 (.fin m e) = false := by
  rw [Bool.eq_false_iff]
  intro h
  rw [F64.maxFloat64, F64.lt_fin_iff] at h
  have h1 : (2 : ℚ) ^ (1023 : Int) ≤ (((2 : Int) ^ 53 - 1 : Int) : ℚ) * (2 : ℚ) ^ (971 : Int) := by
    norm_num
  linarith

/-! ## Facts about the retry loop -/

theorem Retry.delay_snd (ovf : F64 → Int) (r : Retry) (attempt : Int) :
    (r.delay ovf attempt).2 = r.skip 1 := by
  simp only [Retry.delay]
  split_ifs <;> rfl

theorem Retry.skip_zero (r : Retry) : r.skip 0 = r := rfl

theorem Retry.skip_skip (r : Retry) (i j : Nat) : (r.skip i).skip j = r.skip (i + j) := by
  simp [Retry.skip, Nat.add_assoc]

theorem wrapInt64_of_inRange {x : Int} (h1 : -2 ^ 63 ≤ x) (h2 : x < 2 ^ 63) :
    wrapInt64 x = x := by
  unfold wrapInt64
  rw [Int.emod_eq_of_lt (by omega) (by omega)]
  omega

theorem Retry.DoLoop_failures (ovf : F64 → Int) (fn : Nat → Error) (n : Nat) :
    ∀ (fuel : Nat) (a : Int) (err : Error) (c : Nat) (att slept : List Int) (r : Retry),
      (∀ j, j < n → fn (c + 1 + j) ≠ none) → a + n ≤ r.MaxAttempts + 1 →
      -2 ^ 63 ≤ a → a + n < 2 ^ 63 →
      Retry.DoLoop ovf fn (fuel + n) a err c att slept r =
        Retry.DoLoop ovf fn fuel (a + n) (if n = 0 then err else fn (c + n)) (c + n)
          (att ++ (List.range n).map (fun (i : Nat) => a + (i : Int)))
          (slept ++ (List.range n).map (fun (i : Nat) => ((r.skip i).delay ovf (a + (i : Int))).1))
          (r.skip n) := by
  induction n with
  | zero =>
    intro fuel a err c att slept r _ _ _ _
    simp [Retry.skip_zero]
  | succ n ih =>
    intro fuel a err c att slept r hfail hmax hlo hhi
    have hle : a ≤ r.MaxAttempts := by push_cast at hmax; omega
    have hf0 := hfail 0 (Nat.succ_pos n)
    obtain ⟨e, he⟩ := Option.ne_none_iff_exists'.mp hf0
    simp only [Nat.add_zero] at he
    have hw : wrapInt64 (a + 1) = a + 1 :=
      wrapInt64_of_inRange (by omega) (by push_cast at hhi; omega)
    rw [show fuel + (n + 1) = (fuel + n) + 1 by omega]
    rw [Retry.DoLoop, if_pos hle]
    simp only [he, hw, Retry.delay_snd]
    rw [ih fuel (a + 1) (some e) (c + 1) _ _ (r.skip 1)
      (fun j hj => by
        have := hfail (j + 1) (by omega)
        rwa [show c + 1 + (j + 1) = c + 1 + 1 + j by omega] at this)
      (by show a + 1 + (n : Int) ≤ r.MaxAttempts + 1; push_cast at hmax; omega)
      (by omega) (by push_cast at hhi; omega)]
    have e1 : a + 1 + (n : Int) = a + ((n + 1 : Nat) : Int) := by push_cast; ring
    have e2 : c + 1 + n = c + (n + 1) := by omega
    have e3 : (if n = 0 then some e else fn (c + 1 + n)) =
        (if n + 1 = 0 then err else fn (c + (n + 1))) := by
      by_cases h0 : n = 0
      · subst h0; simp [he]
      · simp [h0, e2]
    have hl1 : [a] ++ List.map (fun (i : Nat) => a + 1 + (i : Int)) (List.range n) =
        List.map (fun (i : Nat) => a + (i : Int)) (List.range (n + 1)) := by
      rw [List.range_succ_eq_map, List.map_cons, List.map_map]
      simp only [List.singleton_append, Nat.cast_zero, add_zero, List.cons.injEq, true_and]
      apply List.map_congr_left
      intro i _
      simp only [Function.comp, Nat.cast_succ]
      ring
    have hl2 : [(r.delay ovf a).1] ++
          List.map (fun (i : Nat) => (((r.skip 1).skip i).delay ovf (a + 1 + (i : Int))).1)
            (List.range n) =
        List.map (fun (i : Nat) => ((r.skip i).delay ovf (a + (i : Int))).1)
          (List.range (n + 1)) := by
      rw [List.range_succ_eq_map, List.map_cons, List.map_map]
      simp only [List.singleton_append, Nat.cast_zero, add_zero, Retry.skip_zero,
        List.cons.injEq, true_and]
      apply List.map_congr_left
      intro i _
      simp only [Function.comp, Nat.cast_succ, Retry.skip_skip]
      rw [show 1 + i = i + 1 by omega, show a + 1 + (i : Int) = a + ((i : Int) + 1) by ring]
    rw [e3, e1, e2, Retry.skip_skip, show 1 + n = n + 1 by omega, List.append_assoc,
      List.append_assoc, hl1, hl2]

theorem Retry.Do_success (ovf : F64 → Int) (r : Retry) (fn : Nat → Error) (n fuel : Nat)
    (hfail : ∀ j, 1 ≤ j → j ≤ n → fn j ≠ none) (hok : fn (n + 1) = none)
    (hn : (n : Int) < r.MaxAttempts) (hN : r.MaxAttempts ≤ maxInt64) (hfuel : n < fuel) :
    r.Do ovf fn fuel = some
      { err := none, calls := n + 1,
        attempts := (List.range n).map (fun (i : Nat) => 1 + (i : Int)),
        slept := (List.range n).map (fun (i : Nat) => ((r.skip i).delay ovf (1 + (i : Int))).1),
        after := r.skip n } := by
  unfold maxInt64 at hN
  obtain ⟨f, rfl⟩ : ∃ f, fuel = (f + 1) + n := ⟨fuel - n - 1, by omega⟩
  unfold Retry.Do
  rw [Retry.DoLoop_failures ovf fn n (f + 1) 1 none 0 [] [] r
    (fun j hj => hfail (0 + 1 + j) (by omega) (by omega)) (by omega) (by norm_num) (by omega)]
  rw [Retry.DoLoop, if_pos (show (1 : Int) + n ≤ (r.skip n).MaxAttempts by
    show (1 : Int) + n ≤ r.MaxAttempts; omega)]
  simp only [Nat.zero_add, hok, List.nil_append]

theorem Retry.Do_exhausted (ovf : F64 → Int) (r : Retry) (fn : Nat → Error) (n fuel : Nat)
    (hfail : ∀ j, 1 ≤ j → j ≤ n → fn j ≠ none) (hn : (n : Int) = max r.MaxAttempts 0)
    (hmax : (n : Int) < maxInt64) (hfuel : n < fuel) :
    r.Do ovf fn fuel = some
      { err := errorsJoin (some errMaxAttemptsReached) (if n = 0 then none else fn n),
        calls := n,
        attempts := (List.range n).map (fun (i : Nat) => 1 + (i : Int)),
        slept := (List.range n).map (fun (i : Nat) => ((r.skip i).delay ovf (1 + (i : Int))).1),
        after := r.skip n } := by
  unfold maxInt64 at hmax
  obtain ⟨f, rfl⟩ : ∃ f, fuel = (f + 1) + n := ⟨fuel - n - 1, by omega⟩
  unfold Retry.Do
  have hstep : Retry.DoLoop ovf fn (f + 1 + n) 1 none 0 [] [] r =
      Retry.DoLoop ovf fn (f + 1) (1 + n) (if n = 0 then none else fn (0 + n)) (0 + n)
        ([] ++ (List.range n).map (fun (i : Nat) => 1 + (i : Int)))
        ([] ++ (List.range n).map (fun (i : Nat) => ((r.skip i).delay ovf (1 + (i : Int))).1))
        (r.skip n) := by
    rcases Nat.eq_zero_or_pos n with h0 | hpos
    · subst h0
      simp [Retry.skip_zero]
    · exact Retry.DoLoop_failures ovf fn n (f + 1) 1 none 0 [] [] r
        (fun j hj => hfail (0 + 1 + j) (by omega) (by omega))
        (by have := le_max_left r.MaxAttempts 0; omega) (by norm_num) (by omega)
  rw [hstep, Retry.DoLoop, if_neg (show ¬ (1 : Int) + n ≤ (r.skip n).MaxAttempts by
    show ¬ (1 : Int) + n ≤ r.MaxAttempts
    have := le_max_left r.MaxAttempts 0
    omega)]
  simp only [Nat.zero_add, List.nil_append]

theorem wrapInt64_inRange (x : Int) : -2 ^ 63 ≤ wrapInt64 x ∧ wrapInt64 x < 2 ^ 63 := by
  unfold wrapInt64
  have h1 := Int.emod_nonneg (x + 2 ^ 63) (show (2 : Int) ^ 64 ≠ 0 by norm_num)
  have h2 := Int.emod_lt_of_pos (x + 2 ^ 63) (show (0 : Int) < 2 ^ 64 by norm_num)
  constructor <;> omega

/-- With `MaxAttempts = math.MaxInt64` the loop condition holds for every value
of the loop variable, which wraps around at `attempt++`: on an operation that
never succeeds the loop does not end, whatever the fuel. -/
theorem Retry.DoLoop_unbounded_budget (ovf : F64 → Int) (fn : Nat → Error)
    (hfail : ∀ j, fn j ≠ none) (fuel : Nat) :
    ∀ (a : Int) (err : Error) (c : Nat) (att slept : List Int) (r : Retry),
      r.MaxAttempts = maxInt64 → a < 2 ^ 63 →
        Retry.DoLoop ovf fn fuel a err c att slept r = none := by
  induction fuel with
  | zero =>
    intro a err c att slept r _ _
    rfl
  | succ fuel ih =>
    intro a err c att slept r hN ha
    obtain ⟨e, he⟩ := Option.ne_none_iff_exists'.mp (hfail (c + 1))
    rw [Retry.DoLoop, if_pos (by rw [hN]; unfold maxInt64; omega)]
    simp only [he, Retry.delay_snd]
    exact ih _ _ _ _ _ _ hN (wrapInt64_inRange _).2

theorem Retry.DoLoop_frame (ovf : F64 → Int) (fn : Nat → Error) (fuel : Nat) :
    ∀ (a : Int) (err : Error) (c : Nat) (att slept : List Int) (r : Retry) (run : DoRun),
      Retry.DoLoop ovf fn fuel a err c att slept r = some run →
        slept.length ≤ run.slept.length ∧
          run.attempts.length + slept.length = run.slept.length + att.length ∧
          run.after = r.skip (run.slept.length - slept.length) := by
  induction fuel with
  | zero =>
    intro a err c att slept r run h
    simp [Retry.DoLoop] at h
  | succ fuel ih =>
    intro a err c att slept r run h
    rw [Retry.DoLoop] at h
    split_ifs at h with hle
    · cases hfn : fn (c + 1) with
      | none =>
        simp only [hfn, Option.some.injEq] at h
        subst h
        simp [Retry.skip_zero, Nat.add_comm]
      | some e =>
        simp only [hfn, Retry.delay_snd] at h
        obtain ⟨h1, h2, h3⟩ := ih _ _ _ _ _ _ _ h
        simp only [List.length_append, List.length_singleton] at h1 h2 h3
        refine ⟨by omega, by omega, ?_⟩
        rw [h3, Retry.skip_skip]
        congr 1
        omega
    · simp only [Option.some.injEq] at h
      subst h
      simp [Retry.skip_zero, Nat.add_comm]

theorem GoError.matches_self (e : GoError) : e.matches e = true := by
  cases e <;> simp [GoError.matches]

/-! ## Rounding never overflows on bounded values -/

theorem F64.bitLenAux_spec (fuel : Nat) : ∀ n, n ≤ fuel →
    n < 2 ^ F64.bitLenAux fuel n ∧ (n ≠ 0 → 2 ^ (F64.bitLenAux fuel n - 1) ≤ n) := by
  induction fuel with
  | zero =>
    intro n hn
    have : n = 0 := by omega
    subst this
    simp [F64.bitLenAux]
  | succ fuel ih =>
    intro n hn
    rw [F64.bitLenAux]
    split_ifs with h0
    · subst h0
      simp
    · obtain ⟨h1, h2⟩ := ih (n / 2) (by omega)
      constructor
      · rw [pow_succ]
        omega
      · intro _
        rw [Nat.add_sub_cancel]
        by_cases hh : n / 2 = 0
        · have : F64.bitLenAux fuel (n / 2) = 0 := by
            rw [hh]
            cases fuel <;> simp [F64.bitLenAux]
          rw [this]
          simp
          omega
        · have h3 := h2 hh
          have hpos : 0 < F64.bitLenAux fuel (n / 2) := by
            by_contra hc
            have : F64.bitLenAux fuel (n / 2) = 0 := by omega
            rw [this] at h1
            simp at h1
            exact hh h1
          obtain ⟨l, hl⟩ : ∃ l, F64.bitLenAux fuel (n / 2) = l + 1 := ⟨_, (Nat.succ_pred_eq_of_pos hpos).symm⟩
          rw [hl] at h3 ⊢
          rw [Nat.add_sub_cancel] at h3
          rw [pow_succ]
          omega

theorem F64.lt_two_pow_bitLen (n : Nat) : n < 2 ^ F64.bitLen n :=
  (F64.bitLenAux_spec n n le_rfl).1

theorem F64.two_pow_bitLen_le {n : Nat} (h : n ≠ 0) : 2 ^ (F64.bitLen n - 1) ≤ n :=
  (F64.bitLenAux_spec n n le_rfl).2 h

theorem F64.bitLen_le_of_lt {n l : Nat} (h : n < 2 ^ l) : F64.bitLen n ≤ l := by
  by_cases h0 : n = 0
  · subst h0
    simp [F64.bitLen, F64.bitLenAux]
  · have h1 := F64.two_pow_bitLen_le h0
    have h2 : 2 ^ (F64.bitLen n - 1) < 2 ^ l := lt_of_le_of_lt h1 h
    have h3 := (Nat.pow_lt_pow_iff_right (by norm_num : 1 < 2)).mp h2
    omega

theorem F64.roundShift_le {n k c : Nat} (h : n ≤ c * 2 ^ k) : F64.roundShift n k ≤ c := by
  have hpos : 0 < 2 ^ k := by positivity
  have hq : n / 2 ^ k ≤ c := by
    rw [Nat.div_le_iff_le_mul_add_pred hpos]
    rw [Nat.mul_comm]
    omega
  unfold F64.roundShift
  simp only
  split_ifs with hr
  · rcases Nat.lt_or_ge (n / 2 ^ k) c with hlt | hge
    · omega
    · exfalso
      have hqc : n / 2 ^ k = c := le_antisymm hq hge
      have hdm := Nat.div_add_mod n (2 ^ k)
      rw [hqc] at hdm
      have hr0 : n % 2 ^ k = 0 := by
        have : 2 ^ k * c + n % 2 ^ k ≤ c * 2 ^ k := by rw [hdm]; exact h
        rw [Nat.mul_comm] at this
        omega
      rw [hr0] at hr
      omega
  · exact hq

theorem F64.roundShift_zero (k : Nat) : F64.roundShift 0 k = 0 := by
  have hpos : 0 < 2 ^ k := by positivity
  unfold F64.roundShift
  simp only [Nat.zero_div, Nat.zero_mod, Nat.mul_zero]
  rw [if_neg]
  omega

theorem F64.round_of_abs_le (m e K : Int) (hK1 : -1074 ≤ K) (hK2 : K ≤ 1023)
    (h : (m.natAbs : ℚ) * (2 : ℚ) ^ e ≤ (2 : ℚ) ^ K) :
    ∃ m' e', F64.round m e = .fin m' e' ∧ (m'.natAbs : ℚ) * (2 : ℚ) ^ e' ≤ (2 : ℚ) ^ K ∧
      (0 ≤ m → 0 ≤ m') := by
  have h2 : (1 : ℚ) < 2 := by norm_num
  have h20 : (2 : ℚ) ≠ 0 := by norm_num
  have hsign : ∀ q : Nat, (0 ≤ m → 0 ≤ (if m < 0 then -(q : Int) else (q : Int))) := by
    intro q hm
    rw [if_neg (by omega)]
    exact Int.natCast_nonneg _
  have habs : ∀ q : Nat, (if m < 0 then -(q : Int) else (q : Int)).natAbs = q := by
    intro q
    split_ifs <;> simp
  by_cases h0 : m.natAbs = 0
  · refine ⟨(if m < 0 then -((0 : Nat) : Int) else ((0 : Nat) : Int)),
      F64.roundExp m.natAbs e, ?_, ?_, hsign 0⟩
    · unfold F64.round
      simp only [h0, F64.roundShift_zero]
      rw [if_neg (by simp)]
    · rw [habs]
      simp only [Nat.cast_zero, zero_mul]
      positivity
  · have hn1 : (1 : ℚ) ≤ (m.natAbs : ℚ) := by exact_mod_cast Nat.one_le_iff_ne_zero.mpr h0
    have hpe : (0 : ℚ) < (2 : ℚ) ^ e := by positivity
    have heK : e ≤ K := by
      have : (2 : ℚ) ^ e ≤ (2 : ℚ) ^ K := by
        calc (2 : ℚ) ^ e = 1 * (2 : ℚ) ^ e := (one_mul _).symm
          _ ≤ (m.natAbs : ℚ) * (2 : ℚ) ^ e := by gcongr
          _ ≤ (2 : ℚ) ^ K := h
      exact (zpow_le_zpow_iff_right₀ h2).mp this
    have hL := F64.two_pow_bitLen_le h0
    have hLpos : 0 < F64.bitLen m.natAbs := by
      by_contra hc
      have hz : F64.bitLen m.natAbs = 0 := by omega
      have := F64.lt_two_pow_bitLen m.natAbs
      rw [hz] at this
      omega
    have hLK : e + (F64.bitLen m.natAbs : Int) - 1 ≤ K := by
      have h1 : ((2 : ℚ) ^ (F64.bitLen m.natAbs - 1 : Nat)) ≤ (m.natAbs : ℚ) := by
        exact_mod_cast hL
      have : (2 : ℚ) ^ (e + (F64.bitLen m.natAbs : Int) - 1) ≤ (2 : ℚ) ^ K := by
        calc (2 : ℚ) ^ (e + (F64.bitLen m.natAbs : Int) - 1)
            = (2 : ℚ) ^ ((F64.bitLen m.natAbs - 1 : Nat) : Int) * (2 : ℚ) ^ e := by
              rw [← zpow_add₀ h20]
              congr 1
              omega
          _ = (2 : ℚ) ^ (F64.bitLen m.natAbs - 1 : Nat) * (2 : ℚ) ^ e := by
              rw [zpow_natCast]
          _ ≤ (m.natAbs : ℚ) * (2 : ℚ) ^ e := by gcongr
          _ ≤ (2 : ℚ) ^ K := h
      exact (zpow_le_zpow_iff_right₀ h2).mp this
    have hexK : F64.roundExp m.natAbs e ≤ K := by
      unfold F64.roundExp
      simp only [max_le_iff]
      exact ⟨heK, by omega, hK1⟩
    have hexe : e ≤ F64.roundExp m.natAbs e := le_max_left _ _
    have hk : (((F64.roundExp m.natAbs e - e).toNat : Nat) : Int) = F64.roundExp m.natAbs e - e :=
      Int.toNat_of_nonneg (by omega)
    have hc : (((K - F64.roundExp m.natAbs e).toNat : Nat) : Int) = K - F64.roundExp m.natAbs e :=
      Int.toNat_of_nonneg (by omega)
    have hnle : m.natAbs ≤ 2 ^ (K - F64.roundExp m.natAbs e).toNat *
        2 ^ (F64.roundExp m.natAbs e - e).toNat := by
      have : (m.natAbs : ℚ) ≤ (2 : ℚ) ^ (K - e) := by
        rw [zpow_sub₀ h20, le_div_iff₀ hpe]
        exact h
      have h3 : (2 : ℚ) ^ (K - e) =
          ((2 ^ (K - F64.roundExp m.natAbs e).toNat *
            2 ^ (F64.roundExp m.natAbs e - e).toNat : Nat) : ℚ) := by
        push_cast
        rw [← zpow_natCast, ← zpow_natCast, hk, hc, ← zpow_add₀ h20]
        congr 1
        omega
      rw [h3] at this
      exact_mod_cast this
    have hq := F64.roundShift_le hnle
    have hbl : F64.bitLen (F64.roundShift m.natAbs (F64.roundExp m.natAbs e - e).toNat) ≤
        (K - F64.roundExp m.natAbs e).toNat + 1 := by
      apply F64.bitLen_le_of_lt
      calc F64.roundShift m.natAbs (F64.roundExp m.natAbs e - e).toNat
          ≤ 2 ^ (K - F64.roundExp m.natAbs e).toNat := hq
        _ < 2 ^ ((K - F64.roundExp m.natAbs e).toNat + 1) :=
            Nat.pow_lt_pow_right (by norm_num) (by omega)
    refine ⟨(if m < 0
        then -((F64.roundShift m.natAbs (F64.roundExp m.natAbs e - e).toNat : Nat) : Int)
        else ((F64.roundShift m.natAbs (F64.roundExp m.natAbs e - e).toNat : Nat) : Int)),
      F64.roundExp m.natAbs e, ?_, ?_, hsign _⟩
    · unfold F64.round
      simp only
      rw [if_neg]
      intro hov
      have := hov.1
      omega
    · rw [habs]
      calc ((F64.roundShift m.natAbs (F64.roundExp m.natAbs e - e).toNat : Nat) : ℚ) *
            (2 : ℚ) ^ (F64.roundExp m.natAbs e)
          ≤ ((2 ^ (K - F64.roundExp m.natAbs e).toNat : Nat) : ℚ) *
            (2 : ℚ) ^ (F64.roundExp m.natAbs e) := by
            gcongr
        _ = (2 : ℚ) ^ K := by
            push_cast
            rw [← zpow_natCast, hc, ← zpow_add₀ h20]
            congr 1
            omega

theorem F64.finLe_round {m e K : Int} (hm : 0 ≤ m) (hK1 : -1074 ≤ K) (hK2 : K ≤ 1023)
    (h : (m : ℚ) * (2 : ℚ) ^ e ≤ (2 : ℚ) ^ K) : (F64.round m e).finLe K := by
  have hcast : ((m.natAbs : Nat) : ℚ) = (m : ℚ) := by
    rw [Nat.cast_natAbs, abs_of_nonneg hm]
  obtain ⟨m', e', hr, hb, hs⟩ := F64.round_of_abs_le m e K hK1 hK2 (by rw [hcast]; exact h)
  rw [hr]
  have hm' := hs hm
  have hcast' : ((m'.natAbs : Nat) : ℚ) = (m' : ℚ) := by
    rw [Nat.cast_natAbs, abs_of_nonneg hm']
  exact ⟨hm', by rw [← hcast']; exact hb⟩

theorem F64.finLe_mul {x y : F64} {A B : Int} (hx : x.finLe A) (hy : y.finLe B)
    (hK1 : -1074 ≤ A + B) (hK2 : A + B ≤ 1023) : (F64.mul x y).finLe (A + B) := by
  cases x with
  | fin m1 e1 =>
    cases y with
    | fin m2 e2 =>
      obtain ⟨hm1, hv1⟩ := hx
      obtain ⟨hm2, hv2⟩ := hy
      apply F64.finLe_round (Int.mul_nonneg hm1 hm2) hK1 hK2
      have h1 : (0 : ℚ) ≤ (m1 : ℚ) * (2 : ℚ) ^ e1 := by positivity
      have h2 : (0 : ℚ) ≤ (m2 : ℚ) * (2 : ℚ) ^ e2 := by positivity
      calc ((m1 * m2 : Int) : ℚ) * (2 : ℚ) ^ (e1 + e2)
          = ((m1 : ℚ) * (2 : ℚ) ^ e1) * ((m2 : ℚ) * (2 : ℚ) ^ e2) := by
            rw [zpow_add₀ (by norm_num : (2 : ℚ) ≠ 0)]
            push_cast
            ring
        _ ≤ (2 : ℚ) ^ A * (2 : ℚ) ^ B := by gcongr
        _ = (2 : ℚ) ^ (A + B) := (zpow_add₀ (by norm_num : (2 : ℚ) ≠ 0) A B).symm
    | inf neg => exact absurd hy (by simp [F64.finLe])
    | nan => exact absurd hy (by simp [F64.finLe])
  | inf neg => exact absurd hx (by simp [F64.finLe])
  | nan => exact absurd hx (by simp [F64.finLe])

theorem F64.finLe_add_one {x : F64} (hx : x.finLe 0) : (F64.add x F64.one).finLe 1 := by
  cases x with
  | fin m e =>
    obtain ⟨hm, hv⟩ := hx
    simp only [F64.add, F64.one]
    apply F64.finLe_round
      (Int.add_nonneg (F64.shl_nonneg hm _) (F64.shl_nonneg (by norm_num) _))
      (by norm_num) (by norm_num)
    have h20 : (2 : ℚ) ≠ 0 := by norm_num
    have key : ∀ (a b : Int), min e 0 ≤ b →
        ((F64.shl a (b - min e 0).toNat : Int) : ℚ) * (2 : ℚ) ^ (min e 0) =
          (a : ℚ) * (2 : ℚ) ^ b := by
      intro a b hb
      rw [F64.shl_cast, mul_assoc, ← zpow_natCast, ← zpow_add₀ h20]
      congr 2
      rw [Int.toNat_of_nonneg (by omega)]
      omega
    rw [Int.cast_add, add_mul, key m e (min_le_left _ _), key 1 0 (min_le_right _ _)]
    simp only [zpow_zero, mul_one, Int.cast_one] at hv ⊢
    norm_num
    linarith
  | inf neg => exact absurd hx (by simp [F64.finLe])
  | nan => exact absurd hx (by simp [F64.finLe])

theorem F64.finLe_ofInt {n : Int} (h0 : 0 ≤ n) (h1 : n ≤ maxInt64) : (F64.ofInt n).finLe 63 := by
  apply F64.finLe_round h0 (by norm_num) (by norm_num)
  have : (n : ℚ) ≤ ((maxInt64 : Int) : ℚ) := Int.cast_le.mpr h1
  simp only [zpow_zero, mul_one]
  refine le_trans this ?_
  unfold maxInt64
  norm_num

theorem F64.finLe_pow2 {n : Int} (h : n ≤ 49) : (F64.pow2 n).finLe 49 := by
  unfold F64.pow2
  rw [if_neg (by omega)]
  split_ifs
  · refine ⟨le_rfl, ?_⟩
    simp only [Int.cast_zero, zero_mul]
    positivity
  · refine ⟨by norm_num, ?_⟩
    rw [Int.cast_one, one_mul]
    exact zpow_le_zpow_right₀ (by norm_num) h

theorem F64.finLe_of_unit {x : F64} (h0 : F64.le F64.zero x = true)
    (h1 : F64.le x F64.one = true) : x.finLe 0 := by
  have hnn := F64.notNeg_of_zero_le h0
  cases x with
  | fin m e =>
    refine ⟨hnn, ?_⟩
    have h20 : (2 : ℚ) ≠ 0 := by norm_num
    have hpos : (0 : ℚ) < (2 : ℚ) ^ (min e 0) := by positivity
    have key : ∀ (a b : Int), min e 0 ≤ b →
        ((F64.shl a (b - min e 0).toNat : Int) : ℚ) * (2 : ℚ) ^ (min e 0) =
          (a : ℚ) * (2 : ℚ) ^ b := by
      intro a b hb
      rw [F64.shl_cast, mul_assoc, ← zpow_natCast, ← zpow_add₀ h20]
      congr 2
      rw [Int.toNat_of_nonneg (by omega)]
      omega
    simp only [F64.le, F64.one, decide_eq_true_eq] at h1
    have h1q : ((F64.shl m (e - min e 0).toNat : Int) : ℚ) ≤
        ((F64.shl 1 (0 - min e 0).toNat : Int) : ℚ) := Int.cast_le.mpr h1
    have := mul_le_mul_of_nonneg_right h1q (le_of_lt hpos)
    rw [key m e (min_le_left _ _), key 1 0 (min_le_right _ _)] at this
    simpa using this
  | inf neg =>
    have : neg = false := hnn
    subst this
    simp [F64.le, F64.one] at h1
  | nan => simp [F64.le] at h0

theorem rawDelay_finLe (r : Retry) (sample : F64) (attempt : Int)
    (hDF0 : 0 ≤ r.DelayFactor) (hDF1 : r.DelayFactor ≤ maxInt64)
    (hRF0 : F64.le F64.zero r.RandomizationFactor = true)
    (hRF1 : F64.le r.RandomizationFactor F64.one = true)
    (hs0 : F64.le F64.zero sample = true) (hs1 : F64.le sample F64.one = true)
    (ha : attempt ≤ 49) : (rawDelay r sample attempt).finLe 113 := by
  unfold rawDelay
  have h1 : (F64.mul (F64.ofInt r.DelayFactor) (F64.pow2 attempt)).finLe 112 := by
    have := F64.finLe_mul (F64.finLe_ofInt hDF0 hDF1) (F64.finLe_pow2 ha)
      (by norm_num) (by norm_num)
    rwa [show (63 : Int) + 49 = 112 by norm_num] at this
  have h2 : (F64.mul r.RandomizationFactor sample).finLe 0 := by
    have := F64.finLe_mul (F64.finLe_of_unit hRF0 hRF1) (F64.finLe_of_unit hs0 hs1)
      (by norm_num) (by norm_num)
    rwa [show (0 : Int) + 0 = 0 by norm_num] at this
  have h3 := F64.finLe_mul h1 (F64.finLe_add_one h2) (by norm_num) (by norm_num)
  rwa [show (112 : Int) + 1 = 113 by norm_num] at h3

/-! ## Bounds on `delay` -/

theorem F64.maxFloat64_not_lt_of_finLe {x : F64} {K : Int} (hx : x.finLe K) (hK : K ≤ 1023) :
    F64.lt F64.maxFloat64 x = false := by
  cases x with
  | fin m e =>
    rw [Bool.eq_false_iff]
    intro h
    rw [F64.maxFloat64, F64.lt_fin_iff] at h
    have h1 : (2 : ℚ) ^ K ≤ (2 : ℚ) ^ (1023 : Int) := zpow_le_zpow_right₀ (by norm_num) hK
    have h2 : (2 : ℚ) ^ (1023 : Int) ≤
        (((2 : Int) ^ 53 - 1 : Int) : ℚ) * (2 : ℚ) ^ (971 : Int) := by norm_num
    have := hx.2
    linarith
  | inf neg => exact absurd hx (by simp [F64.finLe])
  | nan => exact absurd hx (by simp [F64.finLe])

theorem Retry.delay_le_maxDelay (ovf : F64 → Int) (r : Retry) (attempt : Int) :
    (r.delay ovf attempt).1 ≤ r.MaxDelay := by
  simp only [Retry.delay]
  split_ifs <;> first | exact le_rfl | exact le_of_lt (by assumption)

theorem F64.toInt64_nonneg (ovf : F64 → Int) (hovf : ∀ x : F64, x.notNeg → 0 ≤ ovf x)
    {x : F64} (hx : x.notNeg) : 0 ≤ F64.toInt64 ovf x := by
  cases x with
  | fin m e =>
    simp only [F64.toInt64]
    split_ifs
    · exact F64.truncate_nonneg hx e
    · exact hovf _ hx
  | inf neg => exact hovf _ hx
  | nan => exact hovf _ hx

theorem Retry.delay_nonneg (ovf : F64 → Int) (hovf : ∀ x : F64, x.notNeg → 0 ≤ ovf x)
    (r : Retry) (attempt : Int) (hDF : 0 ≤ r.DelayFactor)
    (hRF : F64.le F64.zero r.RandomizationFactor = true)
    (hs : F64.le F64.zero (r.Rand.samples r.Rand.drawn) = true) (hMax : 0 ≤ r.MaxDelay) :
    0 ≤ (r.delay ovf attempt).1 := by
  have hnn : ∀ a, 0 ≤ F64.toInt64 ovf (rawDelay r (r.Rand.samples r.Rand.drawn) a) :=
    fun a => F64.toInt64_nonneg ovf hovf
      (rawDelay_notNeg r _ a hDF (F64.notNeg_of_zero_le hRF) (F64.notNeg_of_zero_le hs))
  have hmaxInt : (0 : Int) ≤ maxInt64 := by unfold maxInt64; norm_num
  unfold rawDelay at hnn
  simp only [Retry.delay, randGenerator.Float64]
  split_ifs <;> first | exact hMax | exact hmaxInt | exact hnn _

/-! ## The claims about `delay` -/

/-- Claim C1, evaluated on the code.  The test policy is valid (delay factor
10 ms, randomization factor 0.25 in `[0, 1]`, maximum delay 2 s) and the sample
`0.6046602879796196` is in `[0, 1)`, yet on a target whose out-of-range
conversion yields `-2 ^ 63` (amd64) `delay(49)` is `-9223372036854775808` ns:
the raw value `10 ^ 7 * 2 ^ 49 * rf` is finite, so neither guard
`> math.MaxFloat64` fires, and it is above the int64 range. -/
theorem delay_negative_at_attempt_49 :
    (0 < testRetry.DelayFactor ∧ F64.le F64.zero testRetry.RandomizationFactor = true ∧
      F64.le testRetry.RandomizationFactor F64.one = true ∧ 0 ≤ testRetry.MaxDelay ∧
      F64.le F64.zero seed1Sample = true ∧ F64.lt seed1Sample F64.one = true) ∧
      (testRetry.delay amd64Convert 49).1 = -9223372036854775808 := by
  decide!

/-- Claim C2, evaluated on the code.  With the test policy and the attempt
`math.MaxInt64` of `TestDelayExponentialBackoff`, the uncapped value is at
least `MaxDelay`, and `delay` returns `-9223372036854775808` ns, not the 2 s of
`MaxDelay`, on a target whose out-of-range conversion yields `-2 ^ 63` (amd64);
it returns 2 s on a target whose conversion saturates (arm64). -/
theorem delay_at_maxInt64_not_maxDelay :
    F64.le (.fin testRetry.MaxDelay 0) (rawDelay testRetry seed1Sample 49) = true ∧
      (testRetry.delay amd64Convert maxInt64).1 = -9223372036854775808 ∧
      (testRetry.delay arm64Convert maxInt64).1 = 2000000000 ∧
      (testRetry.delay amd64Convert 20).1 = 2000000000 := by
  decide!

/-- Claim C3.  For an attempt between 1 and 49, a positive delay factor, a
randomization factor and a sample that are not negative, and a maximum delay
that is an int64: when the raw float64 value
`DelayFactor * 2 ^ attempt * (RandomizationFactor * sample + 1)` is below
`MaxDelay`, `delay(attempt)` is that raw value truncated toward zero to whole
nanoseconds, whatever the target does on an out-of-range conversion; so the
result depends on the attempt, the policy and the sample alone. -/
theorem delay_eq_trunc_rawDelay (ovf : F64 → Int) (r : Retry) (attempt : Int)
    (h1 : 1 ≤ attempt) (h49 : attempt ≤ 49) (hDF : 0 < r.DelayFactor)
    (hRF : F64.le F64.zero r.RandomizationFactor = true)
    (hs : F64.le F64.zero (r.Rand.samples r.Rand.drawn) = true)
    (hMax : r.MaxDelay ≤ maxInt64)
    (hraw : F64.lt (rawDelay r (r.Rand.samples r.Rand.drawn) attempt) (.fin r.MaxDelay 0) = true) :
    some (r.delay ovf attempt).1 = F64.trunc (rawDelay r (r.Rand.samples r.Rand.drawn) attempt) := by
  have hnn := rawDelay_notNeg r (r.Rand.samples r.Rand.drawn) attempt (le_of_lt hDF)
    (F64.notNeg_of_zero_le hRF) (F64.notNeg_of_zero_le hs)
  have h49n : ¬ attempt > 49 := by omega
  have hb : F64.pow2 attempt = .fin 1 attempt := by
    unfold F64.pow2
    rw [if_neg (by omega), if_neg (by omega)]
  have hnb : F64.lt F64.maxFloat64 (F64.pow2 attempt) = false := by
    rw [hb]
    apply F64.maxFloat64_not_lt_of_lt (c := (2 : ℚ) ^ (50 : Int))
    · rw [Int.cast_one, one_mul]
      exact zpow_lt_zpow_right₀ (by norm_num) (by omega)
    · exact zpow_le_zpow_right₀ (by norm_num) (by norm_num)
  have hd : (r.delay ovf attempt).1 =
      (if F64.toInt64 ovf (rawDelay r (r.Rand.samples r.Rand.drawn) attempt) < r.MaxDelay
        then F64.toInt64 ovf (rawDelay r (r.Rand.samples r.Rand.drawn) attempt)
        else r.MaxDelay) ∨
      F64.lt F64.maxFloat64 (rawDelay r (r.Rand.samples r.Rand.drawn) attempt) = true := by
    by_cases hlt : F64.lt F64.maxFloat64 (rawDelay r (r.Rand.samples r.Rand.drawn) attempt) = true
    · exact Or.inr hlt
    · left
      unfold rawDelay at hlt ⊢
      simp only [Retry.delay, randGenerator.Float64, if_neg h49n, hnb, hlt]
      split_ifs <;> simp_all
  generalize hx : rawDelay r (r.Rand.samples r.Rand.drawn) attempt = x at hraw hnn hd ⊢
  cases x with
  | fin m e =>
    rw [F64.lt_fin_iff] at hraw
    simp only [zpow_zero, mul_one] at hraw
    have hm : 0 ≤ m := hnn
    have hMq : ((r.MaxDelay : Int) : ℚ) ≤ (2 : ℚ) ^ (1023 : Int) := by
      have : ((r.MaxDelay : Int) : ℚ) ≤ ((maxInt64 : Int) : ℚ) := Int.cast_le.mpr hMax
      refine le_trans this ?_
      unfold maxInt64
      norm_num
    have hnd := F64.maxFloat64_not_lt_of_lt hraw hMq
    rcases hd with hd | hd
    · have ht0 := F64.truncate_nonneg hm e
      have htl : F64.truncate m e < r.MaxDelay := by
        have := lt_of_le_of_lt (F64.truncate_le hm e) hraw
        exact_mod_cast this
      have hconv : F64.toInt64 ovf (.fin m e) = F64.truncate m e := by
        unfold maxInt64 at hMax
        simp only [F64.toInt64]
        rw [if_pos ⟨by omega, by omega⟩]
      rw [hd, hconv, if_pos htl, F64.trunc]
    · rw [hnd] at hd
      exact absurd hd (by simp)
  | inf neg =>
    have : neg = false := hnn
    subst this
    simp [F64.lt] at hraw
  | nan => simp [F64.lt] at hraw

/-- Witness of `delay_eq_trunc_rawDelay`: the test policy, the first sample of
seed 1 and attempt 1 meet its hypotheses, and for attempts 1, 2, 3 and 5 it
gives the durations `TestDelayExponentialBackoff` expects. -/
theorem delay_eq_trunc_rawDelay_witness :
    ((1 : Int) ≤ 1 ∧ (1 : Int) ≤ 49 ∧ 0 < testRetry.DelayFactor ∧
      F64.le F64.zero testRetry.RandomizationFactor = true ∧
      F64.le F64.zero (testRetry.Rand.samples testRetry.Rand.drawn) = true ∧
      testRetry.MaxDelay ≤ maxInt64 ∧
      F64.lt (rawDelay testRetry (testRetry.Rand.samples testRetry.Rand.drawn) 1)
        (.fin testRetry.MaxDelay 0) = true) ∧
      some (testRetry.delay amd64Convert 1).1 = some 23023301 ∧
      some (testRetry.delay amd64Convert 2).1 = some 46046602 ∧
      some (testRetry.delay amd64Convert 3).1 = some 92093205 ∧
      some (testRetry.delay amd64Convert 5).1 = some 368372823 :=
  ⟨by decide!,
    (delay_eq_trunc_rawDelay amd64Convert testRetry 1 (by decide) (by decide) (by decide)
      (by decide!) (by decide!) (by decide!) (by decide!)).trans (by decide!),
    (delay_eq_trunc_rawDelay amd64Convert testRetry 2 (by decide) (by decide) (by decide)
      (by decide!) (by decide!) (by decide!) (by decide!)).trans (by decide!),
    (delay_eq_trunc_rawDelay amd64Convert testRetry 3 (by decide) (by decide) (by decide)
      (by decide!) (by decide!) (by decide!) (by decide!)).trans (by decide!),
    (delay_eq_trunc_rawDelay amd64Convert testRetry 5 (by decide) (by decide) (by decide)
      (by decide!) (by decide!) (by decide!) (by decide!)).trans (by decide!)⟩

/-- Claim C4, evaluated on the code.  With jitter disabled, a delay factor of
10 ms and a maximum delay of 2 s, `delay(39)` is 2 s and `delay(40)` is
`-9223372036854775808` ns on a target whose out-of-range conversion yields
`-2 ^ 63` (amd64): `10 ^ 7 * 2 ^ 40` is above the int64 range. -/
theorem delay_decreases_without_jitter :
    (noJitterRetry.delay amd64Convert 39).1 = 2000000000 ∧
      (noJitterRetry.delay amd64Convert 40).1 = -9223372036854775808 ∧
      (noJitterRetry.delay amd64Convert (39 + 1)).1 < (noJitterRetry.delay amd64Convert 39).1 := by
  decide!

/-! ## Facts about the clocked loop -/

theorem spent_call (took : Nat → Nat) (c : Nat) (slept : List Int) :
    spent took (c + 1) slept = spent took c slept + (took (c + 1) : Int) := by
  simp only [spent, List.range_succ, List.map_append, List.sum_append, List.map_cons,
    List.map_nil, List.sum_cons, List.sum_nil]
  ring

theorem spent_step (took : Nat → Nat) (c : Nat) (slept : List Int) (d : Int) :
    spent took (c + 1) (slept ++ [d]) = spent took c slept + (took (c + 1) : Int) + max d 0 := by
  simp only [spent, List.range_succ, List.map_append, List.sum_append, List.map_cons,
    List.map_nil, List.sum_cons, List.sum_nil]
  ring

theorem spent_nonneg (took : Nat → Nat) (c : Nat) (slept : List Int) :
    0 ≤ spent took c slept := by
  unfold spent
  apply add_nonneg
  · apply List.sum_nonneg
    intro x hx
    simp only [List.mem_map] at hx
    obtain ⟨i, _, rfl⟩ := hx
    exact Int.natCast_nonneg _
  · apply List.sum_nonneg
    intro x hx
    simp only [List.mem_map] at hx
    obtain ⟨d, _, rfl⟩ := hx
    exact le_max_right _ _

/-- A run of the loop of `Do` ends no earlier than the instant it has
reached. -/
theorem Retry.DoLoop_spent_le (ovf : F64 → Int) (fn : Nat → Error) (took : Nat → Nat)
    (fuel : Nat) :
    ∀ (a : Int) (err : Error) (c : Nat) (att slept : List Int) (r : Retry) (run : DoRun),
      Retry.DoLoop ovf fn fuel a err c att slept r = some run →
        c ≤ run.calls ∧ spent took c slept ≤ elapsed took run := by
  induction fuel with
  | zero =>
    intro a err c att slept r run h
    simp [Retry.DoLoop] at h
  | succ fuel ih =>
    intro a err c att slept r run h
    rw [Retry.DoLoop] at h
    split_ifs at h with hle
    · cases hfn : fn (c + 1) with
      | none =>
        simp only [hfn, Option.some.injEq] at h
        subst h
        refine ⟨Nat.le_succ c, ?_⟩
        show spent took c slept ≤ spent took (c + 1) slept
        rw [spent_call]
        have : (0 : Int) ≤ (took (c + 1) : Int) := Int.natCast_nonneg _
        omega
      | some e =>
        simp only [hfn] at h
        obtain ⟨h1, h2⟩ := ih _ _ _ _ _ _ _ h
        rw [spent_step] at h2
        have : (0 : Int) ≤ (took (c + 1) : Int) := Int.natCast_nonneg _
        have : (0 : Int) ≤ max (r.delay ovf a).1 0 := le_max_right _ _
        exact ⟨by omega, by omega⟩
    · simp only [Option.some.injEq] at h
      subst h
      exact ⟨le_rfl, le_rfl⟩

/-- A run of `Do` that ends by the timeout, every invocation of the operation
in it returning, is the run the goroutine of `DoTimeout` makes, and the clock
stands at its end at the time the run takes. -/
theorem Retry.DoClockLoop_of_DoLoop (ovf : F64 → Int) (fn : Nat → Error)
    (dur : Nat → Option Nat) (timeout : Int) (fuel : Nat) :
    ∀ (a : Int) (err : Error) (c : Nat) (att slept : List Int) (r : Retry) (run : DoRun),
      Retry.DoLoop ovf fn fuel a err c att slept r = some run →
      (∀ k, c < k → k ≤ run.calls → dur k ≠ none) →
      elapsed (fun k => (dur k).getD 0) run ≤ timeout →
        Retry.DoClockLoop ovf fn dur timeout fuel a err c att slept r
            (spent (fun k => (dur k).getD 0) c slept) =
          some (.ended run (elapsed (fun k => (dur k).getD 0) run)) := by
  induction fuel with
  | zero =>
    intro a err c att slept r run h
    simp [Retry.DoLoop] at h
  | succ fuel ih =>
    intro a err c att slept r run h hdur hle
    obtain ⟨hc, hsp⟩ := Retry.DoLoop_spent_le ovf fn (fun k => (dur k).getD 0) _ _ _ _ _ _ _ _ h
    rw [Retry.DoLoop] at h
    rw [Retry.DoClockLoop, if_neg (not_lt.mpr (le_trans hsp hle))]
    split_ifs at h with hb
    · rw [if_pos hb]
      cases hfn : fn (c + 1) with
      | none =>
        simp only [hfn, Option.some.injEq] at h
        subst h
        obtain ⟨w, hw⟩ := Option.ne_none_iff_exists'.mp (hdur (c + 1) (Nat.lt_succ_self c) le_rfl)
        have he : elapsed (fun k => (dur k).getD 0)
            { err := none, calls := c + 1, attempts := att, slept := slept, after := r } =
            spent (fun k => (dur k).getD 0) c slept + (w : Int) := by
          show spent (fun k => (dur k).getD 0) (c + 1) slept = _
          rw [spent_call]
          simp only [hw, Option.getD_some]
        rw [he] at hle ⊢
        simp only [hw, if_neg (not_lt.mpr hle)]
      | some e =>
        simp only [hfn] at h
        obtain ⟨hc2, _⟩ :=
          Retry.DoLoop_spent_le ovf fn (fun k => (dur k).getD 0) _ _ _ _ _ _ _ _ h
        obtain ⟨w, hw⟩ := Option.ne_none_iff_exists'.mp (hdur (c + 1) (Nat.lt_succ_self c) hc2)
        have hs := spent_step (fun k => (dur k).getD 0) c slept (r.delay ovf a).1
        simp only [hw, Option.getD_some] at hs
        simp only [hw]
        rw [← hs]
        exact ih _ _ _ _ _ _ _ h (fun k hk1 hk2 => hdur k (by omega) hk2) hle
    · rw [if_neg hb]
      simp only [Option.some.injEq] at h
      subst h
      rfl

/-- When the goroutine of `DoTimeout` ends its run by the timeout, that run is
the run of `Do`, every invocation of the operation in it has returned, and the
clock stands at the time the run takes. -/
theorem Retry.DoLoop_of_DoClockLoop (ovf : F64 → Int) (fn : Nat → Error)
    (dur : Nat → Option Nat) (timeout : Int) (fuel : Nat) :
    ∀ (a : Int) (err : Error) (c : Nat) (att slept : List Int) (r : Retry) (run : DoRun)
      (t : Int),
      Retry.DoClockLoop ovf fn dur timeout fuel a err c att slept r
          (spent (fun k => (dur k).getD 0) c slept) = some (.ended run t) →
        Retry.DoLoop ovf fn fuel a err c att slept r = some run ∧
          (∀ k, c < k → k ≤ run.calls → dur k ≠ none) ∧
          t = elapsed (fun k => (dur k).getD 0) run ∧ t ≤ timeout := by
  induction fuel with
  | zero =>
    intro a err c att slept r run t h
    simp [Retry.DoClockLoop] at h
  | succ fuel ih =>
    intro a err c att slept r run t h
    rw [Retry.DoClockLoop] at h
    rw [Retry.DoLoop]
    by_cases hnow : timeout < spent (fun k => (dur k).getD 0) c slept
    · simp [if_pos hnow] at h
    rw [if_neg hnow] at h
    by_cases hb : a ≤ r.MaxAttempts
    · rw [if_pos hb] at h ⊢
      cases hd : dur (c + 1) with
      | none => simp [hd] at h
      | some w =>
        cases hfn : fn (c + 1) with
        | none =>
          simp only [hd, hfn] at h
          by_cases hw : timeout < spent (fun k => (dur k).getD 0) c slept + (w : Int)
          · simp [if_pos hw] at h
          rw [if_neg hw] at h
          simp only [Option.some.injEq, Progress.ended.injEq] at h
          obtain ⟨h1, h2⟩ := h
          subst h1
          subst h2
          refine ⟨rfl, ?_, ?_, not_lt.mp hw⟩
          · intro k hk1 hk2
            have : k = c + 1 := le_antisymm hk2 hk1
            rw [this, hd]
            exact Option.some_ne_none w
          · show _ = spent (fun k => (dur k).getD 0) (c + 1) slept
            rw [spent_call]
            simp only [hd, Option.getD_some]
        | some e =>
          simp only [hd, hfn] at h
          have hs := spent_step (fun k => (dur k).getD 0) c slept (r.delay ovf a).1
          simp only [hd, Option.getD_some] at hs
          rw [← hs] at h
          obtain ⟨h1, h2, h3, h4⟩ := ih _ _ _ _ _ _ _ _ h
          refine ⟨h1, ?_, h3, h4⟩
          intro k hk1 hk2
          rcases Nat.eq_or_lt_of_le (Nat.succ_le_of_lt hk1) with hk | hk
          · rw [← hk, Nat.succ_eq_add_one, hd]
            exact Option.some_ne_none w
          · exact h2 k hk hk2
    · rw [if_neg hb] at h ⊢
      simp only [Option.some.injEq, Progress.ended.injEq] at h
      obtain ⟨h1, h2⟩ := h
      subst h1
      subst h2
      exact ⟨rfl, fun k hk1 hk2 => absurd hk2 (not_le.mpr hk1), rfl, not_lt.mp hnow⟩

/-- Fuel with which the loop of `Do` ends suffices to follow the goroutine of
`DoTimeout` until it ends or the timeout has passed. -/
theorem Retry.DoClockLoop_isSome_of_DoLoop (ovf : F64 → Int) (fn : Nat → Error)
    (dur : Nat → Option Nat) (timeout : Int) (fuel : Nat) :
    ∀ (a : Int) (err : Error) (c : Nat) (att slept : List Int) (r : Retry) (run : DoRun)
      (now : Int),
      Retry.DoLoop ovf fn fuel a err c att slept r = some run →
        Retry.DoClockLoop ovf fn dur timeout fuel a err c att slept r now ≠ none := by
  induction fuel with
  | zero =>
    intro a err c att slept r run now h
    simp [Retry.DoLoop] at h
  | succ fuel ih =>
    intro a err c att slept r run now h
    rw [Retry.DoLoop] at h
    rw [Retry.DoClockLoop]
    split_ifs with hnow hb
    · exact Option.some_ne_none _
    · rw [if_pos hb] at h
      cases hd : dur (c + 1) with
      | none => exact Option.some_ne_none _
      | some w =>
        cases hfn : fn (c + 1) with
        | none =>
          simp only
          split_ifs <;> exact Option.some_ne_none _
        | some e =>
          simp only [hfn] at h
          exact ih _ _ _ _ _ _ _ _ h
    · exact Option.some_ne_none _

/-- When every invocation of the operation that returns takes time, more fuel
than the timeout has nanoseconds suffices to follow the goroutine of
`DoTimeout` until it ends or the timeout has passed. -/
theorem Retry.DoClockLoop_isSome_of_pos (ovf : F64 → Int) (fn : Nat → Error)
    (dur : Nat → Option Nat) (timeout : Int) (hpos : ∀ k w, dur k = some w → 0 < w)
    (fuel : Nat) :
    ∀ (a : Int) (err : Error) (c : Nat) (att slept : List Int) (r : Retry) (now : Int),
      timeout < now + (fuel : Int) →
        Retry.DoClockLoop ovf fn dur timeout (fuel + 1) a err c att slept r now ≠ none := by
  induction fuel with
  | zero =>
    intro a err c att slept r now h
    rw [Retry.DoClockLoop, if_pos (by simpa using h)]
    exact Option.some_ne_none _
  | succ fuel ih =>
    intro a err c att slept r now h
    rw [Retry.DoClockLoop]
    split_ifs with hnow hb
    · exact Option.some_ne_none _
    · cases hd : dur (c + 1) with
      | none => exact Option.some_ne_none _
      | some w =>
        cases hfn : fn (c + 1) with
        | none =>
          simp only
          split_ifs <;> exact Option.some_ne_none _
        | some e =>
          simp only
          apply ih
          have hw : 0 < w := hpos _ _ hd
          have : (0 : Int) ≤ max (r.delay ovf a).1 0 := le_max_right _ _
          push_cast at h
          omega
    · exact Option.some_ne_none _

/-- The timer case of `DoTimeout`: when the run of `Do`, if it ends with every
invocation of the operation returning, ends after the timeout, and the fuel
suffices to tell, `DoTimeout` returns `errTimoutReached` at the timeout (at
once for a timeout that is not positive). -/
theorem Retry.DoTimeoutAt_timer (ovf : F64 → Int) (r : Retry) (timeout : Int)
    (fn : Nat → Error) (dur : Nat → Option Nat) (tie : selectCase) (fuel : Nat)
    (hlate : ∀ run, r.Do ovf fn fuel = some run →
      (∀ k, 1 ≤ k → k ≤ run.calls → dur k ≠ none) →
        timeout < elapsed (fun k => (dur k).getD 0) run)
    (hfuel : (∃ run, r.Do ovf fn fuel = some run) ∨
      ((∀ k w, dur k = some w → 0 < w) ∧ max timeout 0 + 2 ≤ (fuel : Int))) :
    r.DoTimeoutAt ovf timeout fn dur tie fuel =
      some ({ err := some errTimoutReached, completed := none }, max timeout 0) := by
  have hsome : Retry.DoClockLoop ovf fn dur timeout fuel 1 none 0 [] [] r 0 ≠ none := by
    rcases hfuel with ⟨run, hrun⟩ | ⟨hpos, hf⟩
    · exact Retry.DoClockLoop_isSome_of_DoLoop ovf fn dur timeout fuel _ _ _ _ _ _ _ _ hrun
    · obtain ⟨n, rfl⟩ : ∃ n, fuel = n + 1 :=
        ⟨fuel - 1, by have := le_max_right timeout 0; omega⟩
      apply Retry.DoClockLoop_isSome_of_pos ovf fn dur timeout hpos
      have := le_max_left timeout 0
      push_cast at hf
      omega
  unfold Retry.DoTimeoutAt
  cases hp : Retry.DoClockLoop ovf fn dur timeout fuel 1 none 0 [] [] r 0 with
  | none => exact absurd hp hsome
  | some p =>
    cases p with
    | running => rfl
    | ended run t =>
      exfalso
      have h0 : spent (fun k => (dur k).getD 0) 0 [] = 0 := rfl
      rw [← h0] at hp
      obtain ⟨h1, h2, h3, h4⟩ := Retry.DoLoop_of_DoClockLoop ovf fn dur timeout fuel _ _ _ _ _ _ _ _ hp
      have := hlate run h1 (fun k hk1 hk2 => h2 k hk1 hk2)
      omega

/-- The `done` case of `DoTimeout`: when the run of `Do` ends before the
timeout, every invocation of the operation in it returning, `DoTimeout` returns
the error of that run when the run ends. -/
theorem Retry.DoTimeoutAt_done (ovf : F64 → Int) (r : Retry) (timeout : Int)
    (fn : Nat → Error) (dur : Nat → Option Nat) (tie : selectCase) (fuel : Nat) (run : DoRun)
    (hrun : r.Do ovf fn fuel = some run)
    (hdur : ∀ k, 1 ≤ k → k ≤ run.calls → dur k ≠ none)
    (hbefore : elapsed (fun k => (dur k).getD 0) run < timeout) :
    r.DoTimeoutAt ovf timeout fn dur tie fuel =
      some ({ err := run.err, completed := some run },
        elapsed (fun k => (dur k).getD 0) run) := by
  have h := Retry.DoClockLoop_of_DoLoop ovf fn dur timeout fuel _ _ _ _ _ _ _ hrun
    (fun k hk1 hk2 => hdur k hk1 hk2) (le_of_lt hbefore)
  rw [show spent (fun k => (dur k).getD 0) 0 [] = 0 from rfl] at h
  unfold Retry.DoTimeoutAt
  rw [h]
  simp only [if_pos hbefore]


/-! ## The claims about `Do` and `DoTimeout` -/

/-- Claim C5.  When the first success of the operation is on its `k`-th
invocation, with `1 ≤ k ≤ MaxAttempts`, `Do` returns nil after exactly `k`
invocations (as soon as `k` loop iterations are allowed), having slept `k - 1`
times and drawn `k - 1` samples; for `k = 1` it has not slept and has left the
receiver, its random source included, as it was. -/
theorem Do_returns_nil_at_first_success (ovf : F64 → Int) (r : Retry) (fn : Nat → Error)
    (k fuel : Nat) (hk : 1 ≤ k) (hkN : (k : Int) ≤ r.MaxAttempts)
    (hN : r.MaxAttempts ≤ maxInt64) (hfail : ∀ j, 1 ≤ j → j < k → fn j ≠ none)
    (hok : fn k = none) (hfuel : k ≤ fuel) :
    ∃ run, r.Do ovf fn fuel = some run ∧ run.err = none ∧ run.calls = k ∧
      run.slept.length = k - 1 ∧ run.after = r.skip (k - 1) ∧
      (k = 1 → run.slept = [] ∧ run.after = r) := by
  obtain ⟨n, rfl⟩ : ∃ n, k = n + 1 := ⟨k - 1, by omega⟩
  refine ⟨_, Retry.Do_success ovf r fn n fuel (fun j h1 h2 => hfail j h1 (by omega)) hok
    (by push_cast at hkN; omega) hN (by omega), rfl, rfl, by simp, rfl, ?_⟩
  intro h1
  have h0 : n = 0 := by omega
  subst h0
  exact ⟨rfl, rfl⟩

/-- Witness of `Do_returns_nil_at_first_success`: the test policy with five
attempts and an operation that fails twice and then succeeds (`mockFunction(2)`). -/
theorem Do_returns_nil_at_first_success_witness :
    (1 ≤ 3 ∧ ((3 : Nat) : Int) ≤ fiveAttemptRetry.MaxAttempts ∧
      fiveAttemptRetry.MaxAttempts ≤ maxInt64 ∧
      (∀ j, 1 ≤ j → j < 3 → mockFunction 2 j ≠ none) ∧ mockFunction 2 3 = none ∧ 3 ≤ 3) ∧
      ∃ run, fiveAttemptRetry.Do amd64Convert (mockFunction 2) 3 = some run ∧ run.err = none ∧
        run.calls = 3 ∧ run.slept.length = 3 - 1 ∧ run.after = fiveAttemptRetry.skip (3 - 1) ∧
        (3 = 1 → run.slept = [] ∧ run.after = fiveAttemptRetry) :=
  ⟨by decide,
    Do_returns_nil_at_first_success amd64Convert fiveAttemptRetry (mockFunction 2) 3 3 (by decide)
      (by decide) (by decide) (by decide) (by decide) (by decide)⟩

/-- Claim C6 as stated fails: with the test policy (`MaxAttempts = 2`) and an
operation whose second error wraps its first one, both invocations fail, the
two errors are different values, and the error `Do` returns still matches the
error of the first invocation. -/
theorem Do_error_matches_earlier_wrapped_error :
    wrappingOp 1 ≠ none ∧ wrappingOp 2 ≠ none ∧ wrappingOp 1 ≠ wrappingOp 2 ∧
      (testRetry.Do amd64Convert wrappingOp 3).map
        (fun (run : DoRun) => (run.calls, errorsIs run.err (wrappingOp 1))) = some (2, true) := by
  decide!

/-- Claim C6, amended.  For a policy with `MaxAttempts = N`, `1 ≤ N`
and `N < math.MaxInt64`, and an operation whose first `N` invocations all fail,
`Do` invokes the operation exactly `N` times and returns a non-nil error that
matches `errMaxAttemptsReached` and matches the error of the `N`-th invocation;
it matches a target exactly when the target is the returned value itself, is
`errMaxAttemptsReached`, or is matched by the error of the `N`-th invocation. -/
theorem Do_exhausted_error_matches (ovf : F64 → Int) (r : Retry) (fn : Nat → Error)
    (N fuel : Nat) (hN1 : 1 ≤ N) (hN : r.MaxAttempts = (N : Int)) (hmax : (N : Int) < maxInt64)
    (hfail : ∀ j, 1 ≤ j → j ≤ N → fn j ≠ none) (hfuel : N < fuel) :
    ∃ run, r.Do ovf fn fuel = some run ∧ run.calls = N ∧ run.err ≠ none ∧
      errorsIs run.err (some errMaxAttemptsReached) = true ∧
      errorsIs run.err (fn N) = true ∧
      ∀ t : GoError, errorsIs run.err (some t) = true ↔
        (some t = run.err ∨ t = errMaxAttemptsReached ∨ errorsIs (fn N) (some t) = true) := by
  have hN0 : N ≠ 0 := by omega
  obtain ⟨e, he⟩ := Option.ne_none_iff_exists'.mp (hfail N hN1 le_rfl)
  have hrun := Retry.Do_exhausted ovf r fn N fuel hfail
    (by rw [hN]; exact (max_eq_left (by omega)).symm) hmax hfuel
  rw [if_neg hN0, he] at hrun
  refine ⟨_, hrun, rfl, ?_, ?_, ?_, ?_⟩
  · simp [errorsJoin]
  · simp [errorsJoin, errorsIs, GoError.matches, errMaxAttemptsReached]
  · simp [errorsJoin, errorsIs, GoError.matches, he, GoError.matches_self]
  · intro t
    simp only [errorsJoin, errorsIs, GoError.matches, errMaxAttemptsReached, he,
      Bool.or_eq_true, decide_eq_true_eq, Option.some.injEq]
    constructor
    · rintro ((h | h) | h)
      · exact Or.inl h.symm
      · exact Or.inr (Or.inl h.symm)
      · exact Or.inr (Or.inr h)
    · rintro (h | h | h)
      · exact Or.inl (Or.inl h.symm)
      · exact Or.inl (Or.inr h.symm)
      · exact Or.inr h

/-- Witness of `Do_exhausted_error_matches`: the test policy (`MaxAttempts = 2`)
and the operation whose second error wraps its first one. -/
theorem Do_exhausted_error_matches_witness :
    (1 ≤ 2 ∧ testRetry.MaxAttempts = ((2 : Nat) : Int) ∧ ((2 : Nat) : Int) < maxInt64 ∧
      (∀ j, 1 ≤ j → j ≤ 2 → wrappingOp j ≠ none) ∧ 2 < 3) ∧
      ∃ run, testRetry.Do amd64Convert wrappingOp 3 = some run ∧ run.calls = 2 ∧
        run.err ≠ none ∧ errorsIs run.err (some errMaxAttemptsReached) = true ∧
        errorsIs run.err (wrappingOp 2) = true ∧
        ∀ t : GoError, errorsIs run.err (some t) = true ↔
          (some t = run.err ∨ t = errMaxAttemptsReached ∨
            errorsIs (wrappingOp 2) (some t) = true) :=
  ⟨by decide,
    Do_exhausted_error_matches amd64Convert testRetry wrappingOp 2 3 (by decide) (by decide)
      (by decide) (by decide) (by decide)⟩

/-- Claim C7, evaluated on the code.  With a budget of one attempt and an
operation that always fails, `Do` invokes the operation once and then sleeps
once, for `delay(1) = 23023301` ns, before it returns the error: one delay
where the claim allows `N - 1 = 0`, and a time slept above
`(N - 1) * MaxDelay = 0`. -/
theorem Do_sleeps_after_last_attempt :
    oneAttemptRetry.MaxAttempts = 1 ∧
      (oneAttemptRetry.Do amd64Convert (mockFunction 1000) 2).map
        (fun (run : DoRun) => (run.calls, run.attempts, run.slept)) =
          some (1, [1], [23023301]) := by
  decide!

/-- Claim C8 as stated fails at the largest budget: with
`MaxAttempts = math.MaxInt64` and an operation whose first `2 ^ 63` invocations
fail, the first success is on call `k = 2 ^ 63 + 1`, and the last failed
invocation before it has the attempt number `math.MinInt64`, because
`attempt++` has wrapped around: `Do` calls `delay` with this attempt, which is
below 1, and sleeps `delay(math.MinInt64) = 0` where the claim has
`delay(k - 1)`. -/
theorem Do_calls_delay_with_minInt64 :
    (maxBudgetRetry.Do amd64Convert (mockFunction 9223372036854775808)
        9223372036854775809).map
      (fun (run : DoRun) =>
        (run.err, run.calls, run.attempts.getLast?, run.slept.getLast?)) =
      some (none, 9223372036854775809, some (-9223372036854775808), some 0) := by
  unfold Retry.Do
  rw [show (9223372036854775809 : Nat) = 3 + 9223372036854775806 by norm_num]
  rw [Retry.DoLoop_failures amd64Convert (mockFunction 9223372036854775808)
    9223372036854775806 3 1 none 0 [] [] maxBudgetRetry
    (fun j hj => by
      have : 0 + 1 + j ≤ 9223372036854775808 := by omega
      simp [mockFunction, this])
    (by
      have : maxBudgetRetry.MaxAttempts = 9223372036854775807 := by decide
      rw [this]
      norm_num)
    (by norm_num) (by norm_num)]
  have hN : ∀ i, (maxBudgetRetry.skip i).MaxAttempts = 9223372036854775807 := by
    intro i
    show maxBudgetRetry.MaxAttempts = 9223372036854775807
    decide
  have hf1 : mockFunction 9223372036854775808 (0 + 9223372036854775806 + 1) =
      some (.base 9223372036854775808) := by decide
  have hf2 : mockFunction 9223372036854775808 (0 + 9223372036854775806 + 1 + 1) =
      some (.base 9223372036854775809) := by decide
  have hf3 : mockFunction 9223372036854775808 (0 + 9223372036854775806 + 1 + 1 + 1) = none := by
    decide
  have hw1 : wrapInt64 (1 + ((9223372036854775806 : Nat) : Int) + 1) =
      -9223372036854775808 := by decide
  have hw2 : wrapInt64 (-9223372036854775808 + 1) = -9223372036854775807 := by decide
  have hd : (((maxBudgetRetry.skip 9223372036854775806).skip 1).delay amd64Convert
      (-9223372036854775808)).1 = 0 := by decide!
  rw [Retry.DoLoop, if_pos (by rw [hN]; norm_num)]
  simp only [hf1, hw1, Retry.delay_snd]
  rw [Retry.DoLoop, if_pos (by rw [Retry.skip_skip, hN]; norm_num)]
  simp only [hf2, hw2, hd, Retry.delay_snd]
  rw [Retry.DoLoop, if_pos (by rw [Retry.skip_skip, Retry.skip_skip, hN]; norm_num)]
  simp only [hf3, Option.map_some', List.getLast?_append, List.getLast?_singleton, Option.or]

/-- Claim C8, amended.  When the operation fails on its first `n` invocations
and the run ends after them, because invocation `n + 1` succeeds within the
budget (the first success is on call `k = n + 1 ≤ MaxAttempts`) or because the
budget is `n` attempts, below `math.MaxInt64`, `Do` has called `delay` with the
attempt numbers `1, ..., n` in this order and has slept exactly
`delay(1), ..., delay(n)`, the `i`-th of them computed with the `i`-th sample
drawn in the run; every attempt number passed to `delay` lies between 1 and
`MaxAttempts`. -/
theorem Do_sleeps_delay_of_each_failed_attempt (ovf : F64 → Int) (r : Retry)
    (fn : Nat → Error) (n fuel : Nat) (hN : r.MaxAttempts ≤ maxInt64)
    (hfail : ∀ j, 1 ≤ j → j ≤ n → fn j ≠ none)
    (hend : (fn (n + 1) = none ∧ (n : Int) < r.MaxAttempts) ∨
      ((n : Int) = max r.MaxAttempts 0 ∧ (n : Int) < maxInt64))
    (hfuel : n < fuel) :
    ∃ run, r.Do ovf fn fuel = some run ∧
      run.attempts = (List.range n).map (fun (i : Nat) => 1 + (i : Int)) ∧
      run.slept =
        (List.range n).map (fun (i : Nat) => ((r.skip i).delay ovf (1 + (i : Int))).1) ∧
      run.after = r.skip n ∧
      ∀ a ∈ run.attempts, 1 ≤ a ∧ a ≤ r.MaxAttempts := by
  have hmem : ∀ a ∈ (List.range n).map (fun (i : Nat) => 1 + (i : Int)),
      (n : Int) ≤ r.MaxAttempts → 1 ≤ a ∧ a ≤ r.MaxAttempts := by
    intro a ha hle
    simp only [List.mem_map, List.mem_range] at ha
    obtain ⟨i, hi, rfl⟩ := ha
    omega
  rcases hend with ⟨hok, hlt⟩ | ⟨hex, hmax⟩
  · exact ⟨_, Retry.Do_success ovf r fn n fuel hfail hok hlt hN hfuel, rfl, rfl, rfl,
      fun a ha => hmem a ha (le_of_lt hlt)⟩
  · refine ⟨_, Retry.Do_exhausted ovf r fn n fuel hfail hex hmax hfuel, rfl, rfl, rfl, ?_⟩
    intro a ha
    rcases Nat.eq_zero_or_pos n with h0 | hpos
    · subst h0
      simp at ha
    · apply hmem a ha
      rcases max_choice r.MaxAttempts 0 with h | h
      · omega
      · omega

/-- Witness of `Do_sleeps_delay_of_each_failed_attempt`: the test policy with
five attempts and an operation whose first success is on its third
invocation. -/
theorem Do_sleeps_delay_of_each_failed_attempt_witness :
    (fiveAttemptRetry.MaxAttempts ≤ maxInt64 ∧
      (∀ j, 1 ≤ j → j ≤ 2 → mockFunction 2 j ≠ none) ∧
      ((mockFunction 2 (2 + 1) = none ∧ ((2 : Nat) : Int) < fiveAttemptRetry.MaxAttempts) ∨
        (((2 : Nat) : Int) = max fiveAttemptRetry.MaxAttempts 0 ∧
          ((2 : Nat) : Int) < maxInt64)) ∧ 2 < 3) ∧
      ∃ run, fiveAttemptRetry.Do amd64Convert (mockFunction 2) 3 = some run ∧
        run.attempts = (List.range 2).map (fun (i : Nat) => 1 + (i : Int)) ∧
        run.slept = (List.range 2).map
          (fun (i : Nat) => ((fiveAttemptRetry.skip i).delay amd64Convert (1 + (i : Int))).1) ∧
        run.after = fiveAttemptRetry.skip 2 ∧
        ∀ a ∈ run.attempts, 1 ≤ a ∧ a ≤ fiveAttemptRetry.MaxAttempts :=
  ⟨by decide,
    Do_sleeps_delay_of_each_failed_attempt amd64Convert fiveAttemptRetry (mockFunction 2) 2 3
      (by decide) (by decide) (Or.inl (by decide)) (by decide)⟩

/-- Claim C9.  A call of `delay` returns the receiver with one more sample
drawn from its random source and with `DelayFactor`, `RandomizationFactor`,
`MaxDelay`, `MaxAttempts` and the random source's sequence unchanged, for every
attempt; and a call of `Do` that returns leaves these fields unchanged too,
having drawn one sample for each call of `delay` (one for each sleep). -/
theorem delay_draws_one_sample_and_keeps_policy (ovf : F64 → Int) (r : Retry)
    (fn : Nat → Error) (attempt : Int) :
    ((r.delay ovf attempt).2.DelayFactor = r.DelayFactor ∧
      (r.delay ovf attempt).2.RandomizationFactor = r.RandomizationFactor ∧
      (r.delay ovf attempt).2.MaxDelay = r.MaxDelay ∧
      (r.delay ovf attempt).2.MaxAttempts = r.MaxAttempts ∧
      (r.delay ovf attempt).2.Rand.samples = r.Rand.samples ∧
      (r.delay ovf attempt).2.Rand.drawn = r.Rand.drawn + 1) ∧
    ∀ (fuel : Nat) (run : DoRun), r.Do ovf fn fuel = some run →
      run.after.DelayFactor = r.DelayFactor ∧
      run.after.RandomizationFactor = r.RandomizationFactor ∧
      run.after.MaxDelay = r.MaxDelay ∧
      run.after.MaxAttempts = r.MaxAttempts ∧
      run.after.Rand.samples = r.Rand.samples ∧
      run.attempts.length = run.slept.length ∧
      run.after.Rand.drawn = r.Rand.drawn + run.attempts.length := by
  constructor
  · rw [Retry.delay_snd]
    exact ⟨rfl, rfl, rfl, rfl, rfl, rfl⟩
  · intro fuel run h
    obtain ⟨_, h2, h3⟩ := Retry.DoLoop_frame ovf fn fuel 1 none 0 [] [] r run h
    simp only [List.length_nil, Nat.add_zero, Nat.sub_zero] at h2 h3
    rw [h3, h2]
    exact ⟨rfl, rfl, rfl, rfl, rfl, rfl, rfl⟩

/-- Witness of `delay_draws_one_sample_and_keeps_policy`: a run of `Do` with
the test policy and an operation that always fails. -/
theorem delay_draws_one_sample_and_keeps_policy_witness :
    (testRetry.Do amd64Convert (mockFunction 1000) 3).isSome = true ∧
      ∀ run, testRetry.Do amd64Convert (mockFunction 1000) 3 = some run →
        run.after.DelayFactor = testRetry.DelayFactor ∧
        run.after.RandomizationFactor = testRetry.RandomizationFactor ∧
        run.after.MaxDelay = testRetry.MaxDelay ∧
        run.after.MaxAttempts = testRetry.MaxAttempts ∧
        run.after.Rand.samples = testRetry.Rand.samples ∧
        run.attempts.length = run.slept.length ∧
        run.after.Rand.drawn = testRetry.Rand.drawn + run.attempts.length :=
  ⟨by decide!, fun run h =>
    (delay_draws_one_sample_and_keeps_policy amd64Convert testRetry (mockFunction 1000) 1).2 3 run h⟩

/-- Claim C10.  When the run of `Do` that `DoTimeout` starts completes, by
success or by exhaustion, before the timeout elapses, `DoTimeout` returns the
error of that run, which is the run `Do` makes for the same operation: same
result and same invocations. -/
theorem DoTimeout_returns_result_of_Do (ovf : F64 → Int) (r : Retry) (timeout : Int)
    (fn : Nat → Error) (took : Nat → Nat) (tie : selectCase) (fuel : Nat) (run : DoRun)
    (hrun : r.Do ovf fn fuel = some run) (hbefore : elapsed took run < timeout) :
    r.DoTimeout ovf timeout fn took tie fuel = some { err := run.err, completed := some run } := by
  unfold Retry.DoTimeout
  rw [Retry.DoTimeoutAt_done ovf r timeout fn (fun k => some (took k)) tie fuel run hrun
    (fun k _ _ => Option.some_ne_none _) hbefore]
  rfl

/-- Witness of `DoTimeout_returns_result_of_Do`: the case `no_timeout_err` of
`TestDoTimeout`, an operation that succeeds at once (here after 1 µs) under a
timeout of 1 s, returns nil after one invocation and no failed attempt. -/
theorem DoTimeout_returns_result_of_Do_witness :
    (testRetry.Do amd64Convert (mockFunction 0) 1 =
        some { err := none, calls := 1, attempts := [], slept := [], after := testRetry } ∧
      elapsed (fun _ => 1000)
        { err := none, calls := 1, attempts := [], slept := [], after := testRetry } <
          1000000000) ∧
      testRetry.DoTimeout amd64Convert 1000000000 (mockFunction 0) (fun _ => 1000) selectCase.timer 1 =
        some { err := none,
               completed := some { err := none, calls := 1, attempts := [], slept := [],
                                   after := testRetry } } :=
  ⟨⟨rfl, by decide⟩,
    DoTimeout_returns_result_of_Do amd64Convert testRetry 1000000000 (mockFunction 0)
      (fun _ => 1000) selectCase.timer 1 _ rfl (by decide)⟩

/-! ## Clamping and saturation in `delay` -/

theorem F64.pow2_not_above_maxFloat64 {n : Int} (h : n ≤ 49) :
    F64.lt F64.maxFloat64 (F64.pow2 n) = false :=
  F64.maxFloat64_not_lt_of_finLe (F64.finLe_pow2 h) (by norm_num)

theorem Retry.delay_fst_of_guards (ovf : F64 → Int) (r : Retry) (attempt : Int)
    (hb : F64.lt F64.maxFloat64 (F64.pow2 (min attempt 49)) = false)
    (hd : F64.lt F64.maxFloat64
      (rawDelay r (r.Rand.samples r.Rand.drawn) (min attempt 49)) = false) :
    (r.delay ovf attempt).1 =
      if F64.toInt64 ovf (rawDelay r (r.Rand.samples r.Rand.drawn) (min attempt 49)) < r.MaxDelay
      then F64.toInt64 ovf (rawDelay r (r.Rand.samples r.Rand.drawn) (min attempt 49))
      else r.MaxDelay := by
  have hmin : (if attempt > 49 then 49 else attempt) = min attempt 49 := by
    split_ifs with h
    · exact (min_eq_right (le_of_lt h)).symm
    · exact (min_eq_left (by omega)).symm
  unfold rawDelay at hd ⊢
  simp only [Retry.delay, randGenerator.Float64, hmin, hb, hd]
  split_ifs <;> simp_all

theorem Retry.delay_fst_of_valid (ovf : F64 → Int) (r : Retry) (attempt : Int)
    (hDF0 : 0 ≤ r.DelayFactor) (hDF1 : r.DelayFactor ≤ maxInt64)
    (hRF0 : F64.le F64.zero r.RandomizationFactor = true)
    (hRF1 : F64.le r.RandomizationFactor F64.one = true)
    (hs0 : F64.le F64.zero (r.Rand.samples r.Rand.drawn) = true)
    (hs1 : F64.le (r.Rand.samples r.Rand.drawn) F64.one = true) :
    (r.delay ovf attempt).1 =
      if F64.toInt64 ovf (rawDelay r (r.Rand.samples r.Rand.drawn) (min attempt 49)) < r.MaxDelay
      then F64.toInt64 ovf (rawDelay r (r.Rand.samples r.Rand.drawn) (min attempt 49))
      else r.MaxDelay :=
  Retry.delay_fst_of_guards ovf r attempt
    (F64.pow2_not_above_maxFloat64 (min_le_right _ _))
    (F64.maxFloat64_not_lt_of_finLe
      (rawDelay_finLe r _ _ hDF0 hDF1 hRF0 hRF1 hs0 hs1 (min_le_right _ _)) (by norm_num))

/-- Claim C13.  For every attempt of 49 or more, every policy and every state
of its random source, `delay(attempt)` returns what `delay(49)` returns:
the same duration, computed with the same sample, and the same receiver
afterwards. -/
theorem delay_clamps_attempt_at_49 (ovf : F64 → Int) (r : Retry) (attempt : Int)
    (h : 49 ≤ attempt) : r.delay ovf attempt = r.delay ovf 49 := by
  rcases eq_or_lt_of_le h with h49 | hgt
  · rw [← h49]
  · simp only [Retry.delay, if_pos (show attempt > 49 from hgt),
      if_neg (show ¬ (49 : Int) > 49 by decide)]

/-- Witness of `delay_clamps_attempt_at_49`: the test policy at the attempt
`math.MaxInt64`. -/
theorem delay_clamps_attempt_at_49_witness :
    (49 : Int) ≤ maxInt64 ∧
      testRetry.delay amd64Convert maxInt64 = testRetry.delay amd64Convert 49 :=
  ⟨by decide, delay_clamps_attempt_at_49 amd64Convert testRetry maxInt64 (by decide)⟩


theorem Retry.delay_fst_of_le_49 (ovf : F64 → Int) (r : Retry) (attempt : Int)
    (h : attempt ≤ 49) :
    (r.delay ovf attempt).1 =
      r.capped ovf (rawDelay r (r.Rand.samples r.Rand.drawn) attempt) := by
  have hb := F64.pow2_not_above_maxFloat64 h
  unfold rawDelay Retry.capped
  simp only [Retry.delay, randGenerator.Float64, if_neg (show ¬ attempt > 49 by omega), hb]
  split_ifs <;> simp_all

/-- Claim C14 as stated fails: for the attempt `-1075` the clamped power
`2 ^ min(attempt, 49)` that `math.Pow` returns is `0` (the power underflows),
which is not positive; `delay` then returns 0 ns for the test policy. -/
theorem clamped_power_zero_at_minus_1075 :
    F64.pow2 (min (-1075) 49) = F64.zero ∧
      F64.lt F64.zero (F64.pow2 (min (-1075) 49)) = false ∧
      (testRetry.delay amd64Convert (-1075)).1 = 0 := by
  decide!

/-- Claim C14, amended.  For every integer attempt the clamped power
`b = 2 ^ min(attempt, 49)` is finite, not negative and at most `2 ^ 49`,
positive from attempt `-1074` on and zero below, so the test
`b > math.MaxFloat64` is false; and for a policy with `DelayFactor > 0` (an
int64), `RandomizationFactor` in `[0, 1]` and a sample in `[0, 1]`, the product
`d = DelayFactor * b * rf` is finite (at most `2 ^ 113`), the test
`d > math.MaxFloat64` is false, and the duration `delay` returns is the
conversion of `d`, capped at `MaxDelay`, whatever the conversion yields when
`d` is outside the int64 range. -/
theorem delay_never_takes_saturation_branch (ovf : F64 → Int) (r : Retry) (attempt : Int) :
    ((F64.pow2 (min attempt 49)).finLe 49 ∧
      F64.lt F64.maxFloat64 (F64.pow2 (min attempt 49)) = false ∧
      (-1074 ≤ attempt → F64.lt F64.zero (F64.pow2 (min attempt 49)) = true) ∧
      (attempt < -1074 → F64.pow2 (min attempt 49) = F64.zero)) ∧
    (0 < r.DelayFactor → r.DelayFactor ≤ maxInt64 →
      F64.le F64.zero r.RandomizationFactor = true →
      F64.le r.RandomizationFactor F64.one = true →
      F64.le F64.zero (r.Rand.samples r.Rand.drawn) = true →
      F64.le (r.Rand.samples r.Rand.drawn) F64.one = true →
      (rawDelay r (r.Rand.samples r.Rand.drawn) (min attempt 49)).finLe 113 ∧
      F64.lt F64.maxFloat64
        (rawDelay r (r.Rand.samples r.Rand.drawn) (min attempt 49)) = false ∧
      (r.delay ovf attempt).1 =
        if F64.toInt64 ovf (rawDelay r (r.Rand.samples r.Rand.drawn) (min attempt 49)) <
            r.MaxDelay
        then F64.toInt64 ovf (rawDelay r (r.Rand.samples r.Rand.drawn) (min attempt 49))
        else r.MaxDelay) := by
  have h49 : min attempt 49 ≤ 49 := min_le_right _ _
  refine ⟨⟨F64.finLe_pow2 h49, F64.pow2_not_above_maxFloat64 h49, ?_, ?_⟩, ?_⟩
  · intro hlo
    have hlo2 : -1074 ≤ min attempt 49 := le_min hlo (by norm_num)
    unfold F64.pow2
    rw [if_neg (by omega), if_neg (by omega)]
    simp only [F64.lt, F64.zero, F64.shl, zero_mul, one_mul, decide_eq_true_eq]
    positivity
  · intro hlt
    have hlt2 : min attempt 49 < -1074 := lt_of_le_of_lt (min_le_left _ _) hlt
    unfold F64.pow2
    rw [if_neg (by omega), if_pos hlt2]
    rfl
  · intro hDF0 hDF1 hRF0 hRF1 hs0 hs1
    have hfin := rawDelay_finLe r (r.Rand.samples r.Rand.drawn) (min attempt 49)
      (le_of_lt hDF0) hDF1 hRF0 hRF1 hs0 hs1 h49
    exact ⟨hfin, F64.maxFloat64_not_lt_of_finLe hfin (by norm_num),
      Retry.delay_fst_of_valid ovf r attempt (le_of_lt hDF0) hDF1 hRF0 hRF1 hs0 hs1⟩

/-- Witness of `delay_never_takes_saturation_branch`: the test policy at
attempt 49, where `d` is above the int64 range and the duration returned is
what the conversion yields. -/
theorem delay_never_takes_saturation_branch_witness :
    (0 < testRetry.DelayFactor ∧ testRetry.DelayFactor ≤ maxInt64 ∧
      F64.le F64.zero testRetry.RandomizationFactor = true ∧
      F64.le testRetry.RandomizationFactor F64.one = true ∧
      F64.le F64.zero (testRetry.Rand.samples testRetry.Rand.drawn) = true ∧
      F64.le (testRetry.Rand.samples testRetry.Rand.drawn) F64.one = true) ∧
      F64.lt F64.maxFloat64
        (rawDelay testRetry (testRetry.Rand.samples testRetry.Rand.drawn) (min 49 49)) = false ∧
      (testRetry.delay amd64Convert 49).1 =
        if F64.toInt64 amd64Convert
            (rawDelay testRetry (testRetry.Rand.samples testRetry.Rand.drawn) (min 49 49)) <
            testRetry.MaxDelay
        then F64.toInt64 amd64Convert
          (rawDelay testRetry (testRetry.Rand.samples testRetry.Rand.drawn) (min 49 49))
        else testRetry.MaxDelay :=
  ⟨by decide!,
    ((delay_never_takes_saturation_branch amd64Convert testRetry 49).2 (by decide)
      (by decide!) (by decide!) (by decide!) (by decide!) (by decide!)).2⟩

/-- Claim C15 as stated fails: with the test policy and the same sample,
`delay(0)` is 11511650 ns and `delay(1)` is 23023301 ns. -/
theorem delay_at_attempt_0_differs_from_attempt_1 :
    (testRetry.delay amd64Convert 0).1 = 11511650 ∧
      (testRetry.delay amd64Convert 1).1 = 23023301 ∧
      (testRetry.delay amd64Convert 0).1 ≠ (testRetry.delay amd64Convert 1).1 := by
  decide!

/-- Claim C15, amended.  For every attempt that is 0 or negative, every policy
and every sample, `delay` computes with the attempt as it is given: the
duration it returns is the raw value `DelayFactor * 2 ^ attempt * rf` of that
very attempt, converted and capped at `MaxDelay`. -/
theorem delay_uses_nonpositive_attempt_as_given (ovf : F64 → Int) (r : Retry)
    (attempt : Int) (h : attempt ≤ 0) :
    (r.delay ovf attempt).1 =
      r.capped ovf (rawDelay r (r.Rand.samples r.Rand.drawn) attempt) :=
  Retry.delay_fst_of_le_49 ovf r attempt (by omega)

/-- Witness of `delay_uses_nonpositive_attempt_as_given`: the test policy at
attempt 0, where the raw value is `DelayFactor * rf`, about 11.5 ms. -/
theorem delay_uses_nonpositive_attempt_as_given_witness :
    (0 : Int) ≤ 0 ∧
      (testRetry.delay amd64Convert 0).1 =
        testRetry.capped amd64Convert
          (rawDelay testRetry (testRetry.Rand.samples testRetry.Rand.drawn) 0) ∧
      testRetry.capped amd64Convert
          (rawDelay testRetry (testRetry.Rand.samples testRetry.Rand.drawn) 0) = 11511650 :=
  ⟨le_rfl, delay_uses_nonpositive_attempt_as_given amd64Convert testRetry 0 le_rfl,
    by decide!⟩


/-! ## Budget, timeout and error matching -/

theorem Retry.DoLoop_result (ovf : F64 → Int) (fn : Nat → Error) (fuel : Nat) :
    ∀ (a : Int) (err : Error) (c : Nat) (att slept : List Int) (r : Retry) (run : DoRun),
      Retry.DoLoop ovf fn fuel a err c att slept r = some run →
        c ≤ run.calls ∧
          (run.err = none ∨
            run.err = errorsJoin (some errMaxAttemptsReached)
              (if run.calls = c then err else fn run.calls)) := by
  induction fuel with
  | zero =>
    intro a err c att slept r run h
    simp [Retry.DoLoop] at h
  | succ fuel ih =>
    intro a err c att slept r run h
    rw [Retry.DoLoop] at h
    split_ifs at h with hle
    · cases hfn : fn (c + 1) with
      | none =>
        simp only [hfn, Option.some.injEq] at h
        subst h
        exact ⟨Nat.le_succ c, Or.inl rfl⟩
      | some e =>
        simp only [hfn] at h
        obtain ⟨h1, h2⟩ := ih _ _ _ _ _ _ _ h
        refine ⟨by omega, ?_⟩
        rcases h2 with h2 | h2
        · exact Or.inl h2
        · right
          have hne : run.calls ≠ c := by omega
          rw [if_neg hne, h2]
          by_cases hc : run.calls = c + 1
          · rw [if_pos hc, hc, hfn]
          · rw [if_neg hc]
    · simp only [Option.some.injEq] at h
      subst h
      exact ⟨le_rfl, Or.inr (by simp)⟩

theorem errorsIs_join_sentinel (last : Error) :
    errorsIs (errorsJoin (some errMaxAttemptsReached) last) (some errMaxAttemptsReached) = true ∧
      (errorsIs (errorsJoin (some errMaxAttemptsReached) last) (some errTimoutReached) = true ↔
        errorsIs last (some errTimoutReached) = true) := by
  cases last with
  | none => simp [errorsJoin, errorsIs, GoError.matches, errMaxAttemptsReached, errTimoutReached]
  | some e =>
    simp [errorsJoin, errorsIs, GoError.matches, errMaxAttemptsReached, errTimoutReached]

/-- Claim C16.  For a policy with `MaxAttempts ≤ 0` and any operation, `Do`
returns at its first loop test: it has not invoked the operation, has not
called `delay` or slept, has left the receiver and its random source as they
were, and returns the value `errors.Join` builds from `errMaxAttemptsReached`
alone, a non-nil error that matches `errMaxAttemptsReached` and, apart from
itself, nothing else. -/
theorem Do_with_no_budget (ovf : F64 → Int) (r : Retry) (fn : Nat → Error) (fuel : Nat)
    (hN : r.MaxAttempts ≤ 0) (hfuel : 1 ≤ fuel) :
    r.Do ovf fn fuel = some
        { err := some (.join1 errMaxAttemptsReached), calls := 0, attempts := [], slept := [],
          after := r } ∧
      errorsIs (some (.join1 errMaxAttemptsReached)) (some errMaxAttemptsReached) = true ∧
      ∀ t : GoError, errorsIs (some (.join1 errMaxAttemptsReached)) (some t) = true ↔
        (t = .join1 errMaxAttemptsReached ∨ t = errMaxAttemptsReached) := by
  obtain ⟨f, rfl⟩ : ∃ f, fuel = f + 1 := ⟨fuel - 1, by omega⟩
  refine ⟨?_, by simp [errorsIs, GoError.matches, errMaxAttemptsReached], ?_⟩
  · unfold Retry.Do
    rw [Retry.DoLoop, if_neg (by omega)]
    simp [errorsJoin]
  · intro t
    simp only [errorsIs, GoError.matches, errMaxAttemptsReached, Bool.or_eq_true,
      decide_eq_true_eq]
    constructor
    · rintro (h | h)
      · exact Or.inl h.symm
      · exact Or.inr h.symm
    · rintro (h | h)
      · exact Or.inl h.symm
      · exact Or.inr h.symm

/-- Witness of `Do_with_no_budget`: the test policy with `MaxAttempts = 0` and
an operation that would succeed at once. -/
theorem Do_with_no_budget_witness :
    (noAttemptRetry.MaxAttempts ≤ 0 ∧ 1 ≤ 1) ∧
      noAttemptRetry.Do amd64Convert (mockFunction 0) 1 = some
        { err := some (.join1 errMaxAttemptsReached), calls := 0, attempts := [], slept := [],
          after := noAttemptRetry } :=
  ⟨by decide, (Do_with_no_budget amd64Convert noAttemptRetry (mockFunction 0) 1 (by decide)
    (by decide)).1⟩


/-- Claim C11.  When the timeout elapses before the run of `Do` that
`DoTimeout` starts ends (the run, if it ends with every invocation of the
operation returning, ends after the timeout; a run that never ends, or in
which an invocation of the operation never returns, is included), `DoTimeout`
returns `errTimoutReached` at the timeout (at once for a timeout that is not
positive) and has received nothing from that run, which is abandoned:
whatever the run returns later is not read.  `errTimoutReached` matches no
error but itself, so it carries no cause and does not match
`errMaxAttemptsReached`.  The fuel suffices when the run of `Do` ends within
it, or when it exceeds the nanoseconds of the timeout by two and every
invocation that returns takes at least a nanosecond. -/
theorem DoTimeout_returns_errTimoutReached (ovf : F64 → Int) (r : Retry) (timeout : Int)
    (fn : Nat → Error) (dur : Nat → Option Nat) (tie : selectCase) (fuel : Nat)
    (hlate : ∀ run, r.Do ovf fn fuel = some run →
      (∀ k, 1 ≤ k → k ≤ run.calls → dur k ≠ none) →
        timeout < elapsed (fun k => (dur k).getD 0) run)
    (hfuel : (∃ run, r.Do ovf fn fuel = some run) ∨
      ((∀ k w, dur k = some w → 0 < w) ∧ max timeout 0 + 2 ≤ (fuel : Int))) :
    r.DoTimeoutAt ovf timeout fn dur tie fuel =
        some ({ err := some errTimoutReached, completed := none }, max timeout 0) ∧
      errorsIs (some errTimoutReached) (some errMaxAttemptsReached) = false ∧
      (∀ t : GoError, errorsIs (some errTimoutReached) (some t) = true ↔
        t = errTimoutReached) := by
  refine ⟨Retry.DoTimeoutAt_timer ovf r timeout fn dur tie fuel hlate hfuel, by decide, ?_⟩
  intro t
  simp only [errorsIs, GoError.matches, errTimoutReached, decide_eq_true_eq]
  exact eq_comm

/-- Witness of `DoTimeout_returns_errTimoutReached`, under a timeout of 50 ms.
First the case `timeout_err` of `TestDoTimeout`, 100 failures before success
with the test policy (two attempts, each invocation taking 1 µs here): the run
of `Do` sleeps 23023301 ns and 49405090 ns and ends after 72430391 ns, and
`DoTimeout` returns `errTimoutReached` after 50 ms.  Then a run that never
ends (the largest budget, an operation that always fails), and a run whose
first invocation of the operation never returns. -/
theorem DoTimeout_returns_errTimoutReached_witness :
    (∃ run, testRetry.Do amd64Convert (mockFunction 100) 3 = some run ∧
      run.slept = [23023301, 49405090] ∧
      elapsed (fun _ => 1000) run = 72430391 ∧
      testRetry.DoTimeoutAt amd64Convert 50000000 (mockFunction 100) (fun _ => some 1000)
          selectCase.done 3 =
        some ({ err := some errTimoutReached, completed := none }, 50000000)) ∧
    ((∀ fuel, maxBudgetRetry.Do amd64Convert timedOutOp fuel = none) ∧
      maxBudgetRetry.DoTimeoutAt amd64Convert 50000000 timedOutOp (fun _ => some 1000)
          selectCase.done 50000002 =
        some ({ err := some errTimoutReached, completed := none }, 50000000)) ∧
    testRetry.DoTimeoutAt amd64Convert 50000000 (mockFunction 0) (fun _ => none)
        selectCase.done 1 =
      some ({ err := some errTimoutReached, completed := none }, 50000000) :=
  have hrun := Retry.Do_exhausted amd64Convert testRetry (mockFunction 100) 2 3
    (by decide) (by decide) (by decide) (by decide)
  have hlate : (50000000 : Int) < elapsed (fun k => ((fun _ => some 1000) k).getD 0)
      { err := errorsJoin (some errMaxAttemptsReached)
          (if (2 : Nat) = 0 then none else mockFunction 100 2),
        calls := 2,
        attempts := (List.range 2).map (fun (i : Nat) => 1 + (i : Int)),
        slept := (List.range 2).map
          (fun (i : Nat) => ((testRetry.skip i).delay amd64Convert (1 + (i : Int))).1),
        after := testRetry.skip 2 } := by decide!
  have hnever : ∀ fuel, maxBudgetRetry.Do amd64Convert timedOutOp fuel = none :=
    fun fuel => Retry.DoLoop_unbounded_budget amd64Convert timedOutOp
      (fun _ => Option.some_ne_none _) fuel 1 none 0 [] [] maxBudgetRetry rfl (by norm_num)
  have hone : testRetry.Do amd64Convert (mockFunction 0) 1 =
      some { err := none, calls := 1, attempts := [], slept := [], after := testRetry } :=
    Retry.Do_success amd64Convert testRetry (mockFunction 0) 0 1
      (by decide) (by decide) (by decide) (by decide) (by decide)
  ⟨⟨_, hrun, by decide!, by decide!,
      (DoTimeout_returns_errTimoutReached amd64Convert testRetry 50000000 (mockFunction 100)
        (fun _ => some 1000) selectCase.done 3
        (fun run h _ => by
          rw [hrun] at h
          cases h
          exact hlate)
        (Or.inl ⟨_, hrun⟩)).1⟩,
    ⟨hnever,
      (DoTimeout_returns_errTimoutReached amd64Convert maxBudgetRetry 50000000 timedOutOp
        (fun _ => some 1000) selectCase.done 50000002
        (fun run h _ => by
          rw [hnever] at h
          cases h)
        (Or.inr ⟨fun k w h => by
          cases h
          decide, by decide⟩)).1⟩,
    (DoTimeout_returns_errTimoutReached amd64Convert testRetry 50000000 (mockFunction 0)
      (fun _ => none) selectCase.done 1
      (fun run h hk => by
        rw [hone] at h
        cases h
        exact absurd rfl (hk 1 le_rfl le_rfl))
      (Or.inl ⟨_, hone⟩)).1⟩


/-- Claim C12 as stated fails: with the test policy and an operation whose
errors are `errTimoutReached` (it hands on the timeout error of a `DoTimeout`
of its own), both invocations fail and the error `Do` returns matches
`errMaxAttemptsReached` and matches `errTimoutReached` too. -/
theorem Do_error_matches_errTimoutReached :
    (testRetry.Do amd64Convert timedOutOp 3).map
        (fun (run : DoRun) =>
          (run.calls, errorsIs run.err (some errMaxAttemptsReached),
            errorsIs run.err (some errTimoutReached))) = some (2, true, true) := by
  decide!

/-- Claim C12, amended.  A nil result matches neither sentinel; a non-nil
error returned by `Do` matches `errMaxAttemptsReached` whatever error it wraps,
and it matches `errTimoutReached` exactly when the error of the last invocation
of the operation does; and the error `DoTimeout` returns when the timer fires
first matches `errTimoutReached` and does not match
`errMaxAttemptsReached`. -/
theorem outcomes_distinguished_by_errorsIs (ovf : F64 → Int) (r : Retry) (fn : Nat → Error) :
    (errorsIs none (some errMaxAttemptsReached) = false ∧
      errorsIs none (some errTimoutReached) = false) ∧
    (∀ (fuel : Nat) (run : DoRun), r.Do ovf fn fuel = some run → run.err ≠ none →
      errorsIs run.err (some errMaxAttemptsReached) = true ∧
      (errorsIs run.err (some errTimoutReached) = true ↔
        errorsIs (if run.calls = 0 then none else fn run.calls)
          (some errTimoutReached) = true)) ∧
    (∀ (timeout : Int) (took : Nat → Nat) (tie : selectCase) (fuel : Nat) (t : TimeoutRun),
      r.DoTimeout ovf timeout fn took tie fuel = some t → t.completed = none →
        t.err = some errTimoutReached ∧
        errorsIs t.err (some errTimoutReached) = true ∧
        errorsIs t.err (some errMaxAttemptsReached) = false) := by
  refine ⟨⟨rfl, rfl⟩, ?_, ?_⟩
  · intro fuel run hrun hne
    obtain ⟨_, hres⟩ := Retry.DoLoop_result ovf fn fuel 1 none 0 [] [] r run hrun
    rcases hres with hres | hres
    · exact absurd hres hne
    · rw [hres]
      exact errorsIs_join_sentinel _
  · intro timeout took tie fuel t h hc
    unfold Retry.DoTimeout Retry.DoTimeoutAt at h
    cases hp : Retry.DoClockLoop ovf fn (fun k => some (took k)) timeout fuel 1 none 0 [] [] r 0 with
    | none => simp [hp] at h
    | some p =>
      cases p with
      | running =>
        simp only [hp, Option.map_some', Option.some.injEq] at h
        subst h
        exact ⟨rfl, by decide, by decide⟩
      | ended run finish =>
        simp only [hp] at h
        split at h
        · simp only [Option.map_some', Option.some.injEq] at h
          subst h
          exact ⟨rfl, by decide, by decide⟩
        · simp only [Option.map_some', Option.some.injEq] at h
          subst h
          simp at hc

/-- Witness of `outcomes_distinguished_by_errorsIs`: the run of `Do` with the
test policy on an operation that always fails returns an error that matches
`errMaxAttemptsReached` and not `errTimoutReached`, and under a timeout of
50 ms `DoTimeout` returns the timeout error. -/
theorem outcomes_distinguished_by_errorsIs_witness :
    (∃ run, testRetry.Do amd64Convert (mockFunction 100) 3 = some run ∧ run.err ≠ none ∧
      errorsIs run.err (some errMaxAttemptsReached) = true ∧
      (errorsIs run.err (some errTimoutReached) = true ↔
        errorsIs (if run.calls = 0 then none else mockFunction 100 run.calls)
          (some errTimoutReached) = true)) ∧
    (∃ t, testRetry.DoTimeout amd64Convert 50000000 (mockFunction 100) (fun _ => 1000)
        selectCase.done 3 = some t ∧ t.completed = none ∧
      t.err = some errTimoutReached ∧
      errorsIs t.err (some errTimoutReached) = true ∧
      errorsIs t.err (some errMaxAttemptsReached) = false) :=
  have hrun := Retry.Do_exhausted amd64Convert testRetry (mockFunction 100) 2 3
    (by decide) (by decide) (by decide) (by decide)
  have hlate : (50000000 : Int) < elapsed (fun _ => 1000)
      { err := errorsJoin (some errMaxAttemptsReached)
          (if (2 : Nat) = 0 then none else mockFunction 100 2),
        calls := 2,
        attempts := (List.range 2).map (fun (i : Nat) => 1 + (i : Int)),
        slept := (List.range 2).map
          (fun (i : Nat) => ((testRetry.skip i).delay amd64Convert (1 + (i : Int))).1),
        after := testRetry.skip 2 } := by decide!
  have htimeout : testRetry.DoTimeout amd64Convert 50000000 (mockFunction 100)
      (fun _ => 1000) selectCase.done 3 =
        some { err := some errTimoutReached, completed := none } := by
    unfold Retry.DoTimeout
    rw [Retry.DoTimeoutAt_timer amd64Convert testRetry 50000000 (mockFunction 100)
      (fun _ => some 1000) selectCase.done 3
      (fun run h _ => by
        rw [hrun] at h
        cases h
        exact hlate)
      (Or.inl ⟨_, hrun⟩)]
    rfl
  have h := outcomes_distinguished_by_errorsIs amd64Convert testRetry (mockFunction 100)
  ⟨⟨_, hrun, by decide, h.2.1 3 _ hrun (by decide)⟩,
    ⟨_, htimeout, rfl, h.2.2 50000000 (fun _ => 1000) selectCase.done 3 _ htimeout rfl⟩⟩


/-- Claim C17 as stated fails at the largest budget: with
`MaxAttempts = math.MaxInt64` and an operation whose first `2 ^ 63 - 1`
invocations fail, none of the first `MaxAttempts` invocations returns nil, yet
`Do` returns nil after `2 ^ 63` invocations: `attempt++` wraps around to
`math.MinInt64`, which passes the loop test again. -/
theorem Do_returns_nil_after_budget_wraps :
    (∀ k : Nat, 1 ≤ k → (k : Int) ≤ maxBudgetRetry.MaxAttempts →
      mockFunction 9223372036854775807 k ≠ none) ∧
    (maxBudgetRetry.Do amd64Convert (mockFunction 9223372036854775807)
        9223372036854775808).map (fun (run : DoRun) => (run.err, run.calls)) =
      some (none, 9223372036854775808) := by
  constructor
  · intro k _ hk
    have hk2 : k ≤ 9223372036854775807 := by
      have : maxBudgetRetry.MaxAttempts = 9223372036854775807 := by decide
      rw [this] at hk
      omega
    simp [mockFunction, hk2]
  · unfold Retry.Do
    rw [show (9223372036854775808 : Nat) = 2 + 9223372036854775806 by norm_num]
    rw [Retry.DoLoop_failures amd64Convert (mockFunction 9223372036854775807)
      9223372036854775806 2 1 none 0 [] [] maxBudgetRetry
      (fun j hj => by
        have : 0 + 1 + j ≤ 9223372036854775807 := by omega
        simp [mockFunction, this])
      (by
        have : maxBudgetRetry.MaxAttempts = 9223372036854775807 := by decide
        rw [this]
        norm_num)
      (by norm_num) (by norm_num)]
    have hN : ∀ i, (maxBudgetRetry.skip i).MaxAttempts = 9223372036854775807 := by
      intro i
      show maxBudgetRetry.MaxAttempts = 9223372036854775807
      decide
    have hf1 : mockFunction 9223372036854775807 (0 + 9223372036854775806 + 1) =
        some (.base 9223372036854775808) := by decide
    have hf2 : mockFunction 9223372036854775807 (0 + 9223372036854775806 + 1 + 1) = none := by
      decide
    have hw : wrapInt64 (1 + ((9223372036854775806 : Nat) : Int) + 1) =
        -9223372036854775808 := by decide
    rw [Retry.DoLoop, if_pos (by rw [hN]; norm_num)]
    simp only [hf1, hw, Retry.delay_snd]
    rw [Retry.DoLoop, if_pos (by rw [Retry.skip_skip, hN]; norm_num)]
    simp only [hf2, Option.map_some']


/-- Claim C17, amended.  For a policy with `MaxAttempts < math.MaxInt64` and any
operation, `Do` returns (within `MaxAttempts + 1` loop iterations), and its
result is nil exactly when one of the first `MaxAttempts` invocations of the
operation returns nil; a non-nil result matches `errMaxAttemptsReached` and is
the value `errors.Join` builds from `errMaxAttemptsReached` and the error of
invocation `MaxAttempts`, the last one, alone (from `errMaxAttemptsReached`
alone when `MaxAttempts ≤ 0`): an operation's error is not returned on its own,
and the errors of earlier invocations are not put into the result. -/
theorem Do_result_nil_iff_success_within_budget (ovf : F64 → Int) (r : Retry)
    (fn : Nat → Error) (fuel : Nat) (hN : r.MaxAttempts < maxInt64)
    (hfuel : r.MaxAttempts.toNat < fuel) :
    ∃ run, r.Do ovf fn fuel = some run ∧
      (run.err = none ↔ ∃ k : Nat, 1 ≤ k ∧ (k : Int) ≤ r.MaxAttempts ∧ fn k = none) ∧
      (run.err ≠ none →
        errorsIs run.err (some errMaxAttemptsReached) = true ∧
        run.err = errorsJoin (some errMaxAttemptsReached)
          (if r.MaxAttempts ≤ 0 then none else fn r.MaxAttempts.toNat)) := by
  by_cases hex : ∃ k : Nat, 1 ≤ k ∧ (k : Int) ≤ r.MaxAttempts ∧ fn k = none
  · have hspec := Nat.find_spec hex
    have hmin : ∀ j, j < Nat.find hex → ¬ (1 ≤ j ∧ (j : Int) ≤ r.MaxAttempts ∧ fn j = none) :=
      fun j hj => Nat.find_min hex hj
    obtain ⟨n, hn⟩ : ∃ n, Nat.find hex = n + 1 := ⟨Nat.find hex - 1, by omega⟩
    rw [hn] at hspec
    have hrun := Retry.Do_success ovf r fn n fuel
      (fun j h1 h2 hj => hmin j (by omega) ⟨h1, by omega, hj⟩) hspec.2.2
      (by omega) (le_of_lt hN) (by omega)
    exact ⟨_, hrun, ⟨fun _ => hex, fun _ => rfl⟩, fun h => absurd rfl h⟩
  · have hfail : ∀ j, 1 ≤ j → j ≤ r.MaxAttempts.toNat → fn j ≠ none := by
      intro j h1 h2 hj
      exact hex ⟨j, h1, by omega, hj⟩
    have hrun := Retry.Do_exhausted ovf r fn r.MaxAttempts.toNat fuel hfail
      (by omega) (by unfold maxInt64 at hN ⊢; omega) hfuel
    have hlast : (if r.MaxAttempts.toNat = 0 then none else fn r.MaxAttempts.toNat) =
        (if r.MaxAttempts ≤ 0 then none else fn r.MaxAttempts.toNat) := by
      by_cases h0 : r.MaxAttempts ≤ 0
      · rw [if_pos h0, if_pos (by omega)]
      · rw [if_neg h0, if_neg (by omega)]
    rw [hlast] at hrun
    refine ⟨_, hrun, ⟨fun h => ?_, fun h => absurd h hex⟩, fun _ => ⟨?_, rfl⟩⟩
    · exfalso
      revert h
      cases (if r.MaxAttempts ≤ 0 then none else fn r.MaxAttempts.toNat) <;>
        simp [errorsJoin]
    · exact (errorsIs_join_sentinel _).1

/-- Witness of `Do_result_nil_iff_success_within_budget`: the test policy with
five attempts and an operation that fails twice and then succeeds. -/
theorem Do_result_nil_iff_success_within_budget_witness :
    (fiveAttemptRetry.MaxAttempts < maxInt64 ∧ fiveAttemptRetry.MaxAttempts.toNat < 6) ∧
      ∃ run, fiveAttemptRetry.Do amd64Convert (mockFunction 2) 6 = some run ∧
        (run.err = none ↔
          ∃ k : Nat, 1 ≤ k ∧ (k : Int) ≤ fiveAttemptRetry.MaxAttempts ∧
            mockFunction 2 k = none) ∧
        (run.err ≠ none →
          errorsIs run.err (some errMaxAttemptsReached) = true ∧
          run.err = errorsJoin (some errMaxAttemptsReached)
            (if fiveAttemptRetry.MaxAttempts ≤ 0 then none
              else mockFunction 2 fiveAttemptRetry.MaxAttempts.toNat)) :=
  ⟨by decide,
    Do_result_nil_iff_success_within_budget amd64Convert fiveAttemptRetry (mockFunction 2) 6
      (by decide) (by decide)⟩

end retry
